import Mathlib

/-!
Verification development for the attribute-extraction pipeline of the
insurance-claims repository.  The Python sources are shallowly embedded:
pure string-processing functions become Lean functions over `List Char`,
the module-level mutable generation config becomes explicit state passing,
and Python exceptions become `Except`/`Option` results.  Scanning functions
are written with an explicit fuel argument (always instantiated with the
input length plus slack) so that every definition reduces in the kernel.
-/

namespace InsClaims

/-! ## Generic Python-style string helpers (over `List Char`) -/

/-- Python `str.isspace` characters relevant to `str.strip`
(space, tab, newline, carriage return, vertical tab, form feed). -/
def pyWs (c : Char) : Bool :=
  c = ' ' || c = '\t' || c = '\n' || c = '\r' || c = '\x0b' || c = '\x0c'

/-- Python `str.strip()`: remove leading and trailing whitespace. -/
def pyStrip (l : List Char) : List Char :=
  ((l.dropWhile pyWs).reverse.dropWhile pyWs).reverse

/-- Boolean prefix test on character lists. -/
def chPre : List Char → List Char → Bool
  | [], _ => true
  | _ :: _, [] => false
  | p :: ps, c :: cs => p = c && chPre ps cs

/-- First occurrence split: `splitFirst pat l = some (before, after)` where
`l = before ++ pat ++ after` at the first occurrence of `pat`, mirroring the
semantics of Python `l.split(pat, 1)` when the separator occurs. -/
def splitFirst (pat : List Char) : List Char → Option (List Char × List Char)
  | [] => if pat.isEmpty then some ([], []) else none
  | c :: cs =>
    if chPre pat (c :: cs) then some ([], (c :: cs).drop pat.length)
    else (splitFirst pat cs).map (fun p => (c :: p.1, p.2))

/-- Occurrence test derived from `splitFirst`. -/
def hasSub (pat l : List Char) : Bool :=
  (splitFirst pat l).isSome

/-- Part before the last occurrence of `pat` (whole list if absent),
mirroring Python `l.rsplit(pat, 1)[0]`. -/
def rsplitLastBefore (pat l : List Char) : List Char :=
  match splitFirst pat.reverse l.reverse with
  | some p => p.2.reverse
  | none => l

/-- Collapse every maximal run of two or more newlines into a single comma,
mirroring `re.sub(r"\n\n+", ",", text)`.  `pending` counts the newlines of
the run currently being scanned. -/
def nlEmit (pending : Nat) : List Char :=
  if pending = 0 then [] else if pending = 1 then ['\n'] else [',']

def nlRun (pending : Nat) : List Char → List Char
  | [] => nlEmit pending
  | c :: cs =>
    if c = '\n' then nlRun (pending + 1) cs
    else nlEmit pending ++ c :: nlRun 0 cs

def collapseNL (l : List Char) : List Char := nlRun 0 l

/-- Python `str.replace` for a fixed two-character pattern, replaced by a
single character; left-to-right, non-overlapping. -/
def replace2 (a b r : Char) : List Char → List Char
  | [] => []
  | [c] => [c]
  | x :: y :: rest =>
    if x = a && y = b then r :: replace2 a b r rest
    else x :: replace2 a b r (y :: rest)

/-- Python `str.replace` with a general non-empty pattern, fuelled. -/
def replaceFuel (pat rep : List Char) : Nat → List Char → List Char
  | 0, l => l
  | _ + 1, [] => []
  | fuel + 1, c :: cs =>
    if chPre pat (c :: cs) then rep ++ replaceFuel pat rep fuel ((c :: cs).drop pat.length)
    else c :: replaceFuel pat rep fuel cs

/-- Python `str.replace(pat, rep)` (non-empty pattern). -/
def pyReplace (pat rep l : List Char) : List Char :=
  replaceFuel pat rep (l.length + 1) l

/-! ## Python values

`PyVal` models the fragment of Python values producible by
`ast.literal_eval` that the parser of `model/parser.py` can meet on its
inputs: dicts, lists, sets, strings, numbers, booleans and `None`.
Numbers are kept syntactically (sign and decimal digit lists) since no
claim performs arithmetic on parsed numbers; this avoids modelling IEEE
floats.  Element lists are part of the mutual inductive so that all
recursions stay structural (and hence kernel-reducible). -/

mutual

inductive PyVal : Type where
  | pint : Bool → List Char → PyVal
  | pfloat : Bool → List Char → List Char → PyVal
  | pstr : String → PyVal
  | pbool : Bool → PyVal
  | pnone : PyVal
  | plist : PyItems → PyVal
  | pdict : PyPairs → PyVal
  | pset : PyItems → PyVal
  deriving DecidableEq

inductive PyItems : Type where
  | nil : PyItems
  | cons : PyVal → PyItems → PyItems
  deriving DecidableEq

inductive PyPairs : Type where
  | nil : PyPairs
  | cons : PyVal → PyVal → PyPairs → PyPairs
  deriving DecidableEq

end

/-- The empty Python dict `{}`. -/
def pyEmptyDict : PyVal := PyVal.pdict PyPairs.nil

/-- JSON escaping of a string body as done by `json.dumps` on strings of
printable ASCII characters: `"` and `\` are escaped, others kept. -/
def jsonEscape : List Char → List Char
  | [] => []
  | c :: cs =>
    if c = '"' then '\\' :: '"' :: jsonEscape cs
    else if c = '\\' then '\\' :: '\\' :: jsonEscape cs
    else c :: jsonEscape cs

mutual

/-- `json.dumps` with default separators `", "` / `": "` on the values it
accepts (sets are not JSON-serializable; the branch is never used by any
theorem and returns `"null"`). -/
def dumpsV : PyVal → List Char
  | .pint neg ds => (if neg then ['-'] else []) ++ ds
  | .pfloat neg ip fp => (if neg then ['-'] else []) ++ ip ++ '.' :: fp
  | .pstr s => '"' :: jsonEscape s.data ++ ['"']
  | .pbool b => if b then "true".data else "false".data
  | .pnone => "null".data
  | .plist xs => '[' :: dumpsItems xs ++ [']']
  | .pdict es => '\x7b' :: dumpsPairs es ++ ['\x7d']
  | .pset xs => '[' :: dumpsItems xs ++ [']']

def dumpsItems : PyItems → List Char
  | .nil => []
  | .cons x .nil => dumpsV x
  | .cons x (.cons y t) => dumpsV x ++ ',' :: ' ' :: dumpsItems (.cons y t)

def dumpsPairs : PyPairs → List Char
  | .nil => []
  | .cons k v .nil => dumpsV k ++ ':' :: ' ' :: dumpsV v
  | .cons k v (.cons k2 v2 t) =>
    dumpsV k ++ ':' :: ' ' :: dumpsV v ++ ',' :: ' ' :: dumpsPairs (.cons k2 v2 t)

end

/-- ASCII printable character (no escapes beyond `"`/`\` needed under
`json.dumps` with `ensure_ascii`). -/
def asciiPrint (c : Char) : Bool :=
  0x20 ≤ c.toNat && c.toNat ≤ 0x7e

/-- Canonical decimal digit run: non-empty, digits only, no leading zero
(unless the run is exactly `0`). -/
def canonDigits (ds : List Char) : Bool :=
  (!ds.isEmpty) && ds.all Char.isDigit && (ds = ['0'] || ds.headD '0' ≠ '0')

mutual

/-- Values for which the claimed `dumps`/`parse` round trip is examined:
JSON-serializable values made of dicts with string keys, lists, printable
ASCII strings and canonical numbers.  Booleans and `None` are excluded:
`json.dumps` renders them `true`/`false`/`null`, which
`ast.literal_eval` rejects (see the C3 counterexample). -/
def jsonOkV : PyVal → Bool
  | .pint neg ds => canonDigits ds && !(neg && ds = ['0'])
  | .pfloat _ ip fp => canonDigits ip && !fp.isEmpty && fp.all Char.isDigit
  | .pstr s => s.data.all asciiPrint
  | .pbool _ => false
  | .pnone => false
  | .plist xs => jsonOkItems xs
  | .pdict es => jsonOkPairs es
  | .pset _ => false

def jsonOkItems : PyItems → Bool
  | .nil => true
  | .cons x t => jsonOkV x && jsonOkItems t

def jsonOkPairs : PyPairs → Bool
  | .nil => true
  | .cons k v t =>
    (match k with | .pstr s => s.data.all asciiPrint | _ => false)
      && jsonOkV v && jsonOkPairs t

end

/-! ## `ast.literal_eval`

A recursive-descent parser for Python literals (dicts, lists, sets,
single- or double-quoted strings, decimal numbers, `True`/`False`/`None`),
with Python's tolerance for whitespace and trailing commas, and rejection
of bare names and leading-zero integers.  Unsupported Python spellings
(tuples, bytes, exponents, underscored digits, `\u` escapes) do not occur
in any input examined by the theorems. -/

/-- Recognized backslash escapes inside string literals. -/
def escMap (e : Char) : Option Char :=
  if e = 'n' then some '\n'
  else if e = 't' then some '\t'
  else if e = 'r' then some '\r'
  else if e = 'b' then some '\x08'
  else if e = 'f' then some '\x0c'
  else if e = '\\' then some '\\'
  else if e = '\'' then some '\''
  else if e = '"' then some '"'
  else none

/-- String-literal body up to the closing quote `q`; unknown escapes keep
the backslash, as CPython does (with a warning). -/
def strBody (q : Char) : List Char → Option (List Char × List Char)
  | [] => none
  | c :: cs =>
    if c = q then some ([], cs)
    else if c = '\\' then
      match cs with
      | [] => none
      | e :: cs2 =>
        match escMap e with
        | some d => (strBody q cs2).map (fun p => (d :: p.1, p.2))
        | none => (strBody q cs2).map (fun p => ('\\' :: e :: p.1, p.2))
    else (strBody q cs).map (fun p => (c :: p.1, p.2))

/-- Python 3 rejects integer parts with leading zeros (other than `0`). -/
def leadZeroBad : List Char → Bool
  | d :: _ :: _ => d = '0'
  | _ => false

/-- Decimal number after an optional sign: digits, optionally a dot and
fraction digits. -/
def parseNum (neg : Bool) (l : List Char) : Option (PyVal × List Char) :=
  let ds := l.takeWhile Char.isDigit
  let r1 := l.dropWhile Char.isDigit
  if leadZeroBad ds then none
  else
    match r1 with
    | '.' :: r2 =>
      let fs := r2.takeWhile Char.isDigit
      let r3 := r2.dropWhile Char.isDigit
      if ds.isEmpty && fs.isEmpty then none
      else some (.pfloat neg ds fs, r3)
    | _ => if ds.isEmpty then none else some (.pint neg ds, r1)

mutual

/-- Parse one literal value (leading whitespace allowed). -/
def parseVal : Nat → List Char → Option (PyVal × List Char)
  | 0, _ => none
  | fuel + 1, l =>
    match l.dropWhile pyWs with
    | [] => none
    | c :: cs =>
      if c = '"' ∨ c = '\'' then
        (strBody c cs).map (fun p => (PyVal.pstr (String.mk p.1), p.2))
      else if c = '[' then
        match cs.dropWhile pyWs with
        | ']' :: t => some (.plist .nil, t)
        | l2 =>
          match parseVal fuel l2 with
          | none => none
          | some (v, r) =>
            match parseSeqRest fuel ']' (r.dropWhile pyWs) with
            | none => none
            | some (xs, t) => some (.plist (.cons v xs), t)
      else if c = '\x7b' then
        match cs.dropWhile pyWs with
        | '\x7d' :: t => some (.pdict .nil, t)
        | l2 =>
          match parseVal fuel l2 with
          | none => none
          | some (k, r) =>
            match r.dropWhile pyWs with
            | ':' :: r2 =>
              match parseVal fuel (r2.dropWhile pyWs) with
              | none => none
              | some (v, r3) =>
                match parsePairsRest fuel (r3.dropWhile pyWs) with
                | none => none
                | some (es, t) => some (.pdict (.cons k v es), t)
            | r1 =>
              match parseSeqRest fuel '\x7d' r1 with
              | none => none
              | some (xs, t) => some (.pset (.cons k xs), t)
      else if c = '-' then parseNum true cs
      else if c = '+' then parseNum false cs
      else if chPre "True".data (c :: cs) then some (.pbool true, (c :: cs).drop 4)
      else if chPre "False".data (c :: cs) then some (.pbool false, (c :: cs).drop 5)
      else if chPre "None".data (c :: cs) then some (.pnone, (c :: cs).drop 4)
      else if c.isDigit ∨ c = '.' then parseNum false (c :: cs)
      else none

/-- Continue a bracketed element sequence after an element: expects the
closing bracket or a comma (trailing commas tolerated); returns the
remaining elements and the input after the closing bracket. -/
def parseSeqRest : Nat → Char → List Char → Option (PyItems × List Char)
  | 0, _, _ => none
  | fuel + 1, close, l =>
    match l with
    | [] => none
    | c :: cs =>
      if c = close then some (.nil, cs)
      else if c = ',' then
        match cs.dropWhile pyWs with
        | [] => none
        | d :: t =>
          if d = close then some (.nil, t)
          else
            match parseVal fuel (d :: t) with
            | none => none
            | some (v, r) =>
              match parseSeqRest fuel close (r.dropWhile pyWs) with
              | none => none
              | some (xs, t2) => some (.cons v xs, t2)
      else none

/-- Continue a dict entry sequence after an entry. -/
def parsePairsRest : Nat → List Char → Option (PyPairs × List Char)
  | 0, _ => none
  | fuel + 1, l =>
    match l with
    | [] => none
    | c :: cs =>
      if c = '\x7d' then some (.nil, cs)
      else if c = ',' then
        match cs.dropWhile pyWs with
        | [] => none
        | d :: t =>
          if d = '\x7d' then some (.nil, t)
          else
            match parseVal fuel (d :: t) with
            | none => none
            | some (k, r) =>
              match r.dropWhile pyWs with
              | ':' :: r2 =>
                match parseVal fuel (r2.dropWhile pyWs) with
                | none => none
                | some (v, r3) =>
                  match parsePairsRest fuel (r3.dropWhile pyWs) with
                  | none => none
                  | some (es, t2) => some (.cons k v es, t2)
              | _ => none
      else none

end

/-- `ast.literal_eval`: parse the whole (whitespace-trimmed) input as one
literal; anything else raises, modelled as `Except.error`. -/
def pyLiteralEval (s : String) : Except String PyVal :=
  match parseVal (s.length + 8) s.data with
  | some (v, rest) =>
    if (rest.dropWhile pyWs).isEmpty then .ok v
    else .error "malformed node or string"
  | none => .error "malformed node or string"

/-! ## `parse_json_string`
(`assets/lambda/backend/extract_attributes_llm_image/model/parser.py`,
also bundled for the text-extraction lambda). -/

/-- `parse_json_string(text)`: delimiter extraction, blank-line repair,
bracket completion, doubled-brace collapse, then `ast.literal_eval`.
The `try`/`except` around `text.split("<json>", 1)[1]` becomes the match
on `splitFirst`: the subscript fails exactly when `"<json>"` is absent. -/
def parse_json_string (s : String) : Except String PyVal :=
  let t1 :=
    match splitFirst "<json>".data s.data with
    | some p => pyStrip (rsplitLastBefore "</json>".data p.2)
    | none => pyStrip s.data
  let t2 := collapseNL t1
  let t3 := if t2.headD ' ' = '\x7b' ∨ t2.headD ' ' = '[' then t2 else '\x7b' :: t2
  let t4 := if t3.getLastD ' ' = '\x7d' ∨ t3.getLastD ' ' = ']' then t3 else t3 ++ ['\x7d']
  let t5 := replace2 '\x7d' '\x7d' '\x7d' t4
  let t6 := replace2 '\x7b' '\x7b' '\x7b' t5
  pyLiteralEval (String.mk t6)

/-- The response-parsing step of both extraction lambda handlers:
`try: parse_json_string(...) except: response_json = {}`. -/
def handlerParseResponse (s : String) : PyVal :=
  match parse_json_string s with
  | .ok v => v
  | .error _ => pyEmptyDict

/-! ## `truncate_document`
(`assets/lambda/backend/extract_attributes_llm_image/utils.py`, also
bundled with the text-extraction lambda). -/

/-- Python `document.split(" ")`: split at every single space (adjacent
spaces give empty words); `"".split(" ") == [""]`. -/
def splitSp : List Char → List (List Char)
  | [] => [[]]
  | c :: cs =>
    if c = ' ' then [] :: splitSp cs
    else
      match splitSp cs with
      | w :: ws => (c :: w) :: ws
      | [] => [[c]]

/-- Python `" ".join(words)`. -/
def joinSp : List (List Char) → List Char
  | [] => []
  | [w] => w
  | w :: w2 :: ws => w ++ ' ' :: joinSp (w2 :: ws)

/-- Python slice `l[:i]` (negative indices count from the end, clamped). -/
def pySliceTo (l : List (List Char)) (i : ℤ) : List (List Char) :=
  if 0 ≤ i then l.take i.toNat else l.take (l.length - (-i).toNat)

/-- Python slice `l[i:]` for the non-negative indices used here. -/
def pySliceFrom (l : List (List Char)) (i : ℤ) : List (List Char) :=
  if 0 ≤ i then l.drop i.toNat else l.drop (l.length - (-i).toNat)

/-- The multiplier sweep `start, end, step = 1.0, 5.0, 0.1` built by repeated
addition, modelled exactly in tenths: 10, 11, …, 49.  (IEEE accumulation
error could append one extra multiplier near 5.0, which is irrelevant to
the theorems below: when the budget fits, every multiplier yields the same
candidate, and the loop result does not depend on the list's tail.) -/
def multipliersTenths : List ℤ := (List.range 40).map (fun k => 10 + (k : ℤ))

/-- The `for multiplier in multipliers: … if …: break` loop: returns the
first candidate satisfying the budget test, else the last candidate.
(Python would hit an unbound local if the list were empty; the multiplier
list never is, so the `[]` default is unreachable.) -/
def truncLoop (cand : ℤ → List Char) (ok : List Char → Bool) : List ℤ → List Char
  | [] => []
  | [m] => cand m
  | m :: m2 :: rest => if ok (cand m) then cand m else truncLoop cand ok (m2 :: rest)

/-- `truncate_document(document, token_count_total, num_token_prompt, model,
max_token_model)` over its int-typed contract (the text lambda scales the
context length by `0.75` before passing it; both call sites pass whole
token counts here).  The model id only selects the tokenizer, so the
(external, `griptape`) token counter appears as the function argument
`tokenCount`.  `int(split_parameter * multiplier)` for the tenth `m/10` is
`split_parameter * m / 10` (floor division of non-negative ints). -/
def truncate_document (tokenCount : String → ℤ) (document : String)
    (token_count_total : ℤ) (num_token_prompt : ℤ) (max_token_model : ℤ) : String :=
  let doc_words := splitSp document.data
  let split_parameter : ℤ :=
    if max_token_model < token_count_total then (token_count_total - max_token_model) / 2
    else 0
  let mid_point : ℕ := doc_words.length / 2
  let cand : ℤ → List Char := fun m =>
    let cut : ℤ := split_parameter * m / 10
    joinSp (pySliceTo doc_words ((mid_point : ℤ) - cut))
      ++ "\n...\n".data
      ++ joinSp (pySliceFrom doc_words ((mid_point : ℤ) + cut))
  let ok : List Char → Bool := fun d =>
    decide (tokenCount (String.mk d) < max_token_model - num_token_prompt)
  String.mk (truncLoop cand ok multipliersTenths)

/-! ## Model parameter adaptation
(`assets/lambda/backend/extract_attributes_llm/model/bedrock.py` and
`model/params.py`, bundled with both extraction lambdas). -/

/-- A value in a Bedrock parameter dict: a number or a list of strings. -/
inductive BVal : Type where
  | num : ℚ → BVal
  | strs : List String → BVal
  deriving DecidableEq

/-- The vendor-neutral generation config consumed by `get_model_params`
(`GENERATOR_CONFIG` plus the per-request `temperature`, always assigned
before the call). -/
structure GeneratorConfig where
  top_p : ℚ
  top_k : ℚ
  stop_words : List String
  max_tokens : ℚ
  temperature : ℚ
  deriving DecidableEq

def pyStartsWith (p s : String) : Bool := chPre p.data s.data

/-- `get_model_params(model_id, params)`: the `if model_id.startswith(...)`
chain; an unknown prefix falls through and returns the initial empty dict. -/
def get_model_params (model_id : String) (params : GeneratorConfig) : List (String × BVal) :=
  if pyStartsWith "ai21" model_id then
    [("maxTokens", .num params.max_tokens), ("stopSequences", .strs params.stop_words),
     ("temperature", .num params.temperature), ("topP", .num params.top_p),
     ("topKReturn", .num params.top_k)]
  else if pyStartsWith "amazon" model_id then
    [("maxTokenCount", .num params.max_tokens), ("stopSequences", .strs []),
     ("temperature", .num params.temperature), ("topP", .num params.top_p)]
  else if pyStartsWith "anthropic" model_id then
    [("max_tokens", .num params.max_tokens), ("stop_sequences", .strs params.stop_words),
     ("temperature", .num params.temperature), ("top_p", .num params.top_p),
     ("top_k", .num params.top_k)]
  else if pyStartsWith "cohere" model_id then
    [("max_tokens", .num params.max_tokens), ("temperature", .num params.temperature),
     ("p", .num params.top_p), ("k", .num params.top_k)]
  else if pyStartsWith "meta" model_id then
    [("max_gen_len", .num params.max_tokens), ("temperature", .num params.temperature),
     ("top_p", .num params.top_p)]
  else if pyStartsWith "mistral" model_id then
    [("max_tokens", .num params.max_tokens), ("temperature", .num params.temperature),
     ("top_p", .num params.top_p), ("top_k", .num params.top_k)]
  else []

/-- The vendor recognized by the dispatch chain of `get_model_params`
(empty string when no branch matches). -/
def vendorDispatch (model_id : String) : String :=
  if pyStartsWith "ai21" model_id then "ai21"
  else if pyStartsWith "amazon" model_id then "amazon"
  else if pyStartsWith "anthropic" model_id then "anthropic"
  else if pyStartsWith "cohere" model_id then "cohere"
  else if pyStartsWith "meta" model_id then "meta"
  else if pyStartsWith "mistral" model_id then "mistral"
  else ""

/-- The target field names declared by each vendor branch of
`get_model_params`. -/
def vendorTargetKeys (vendor : String) : List String :=
  if vendor = "ai21" then ["maxTokens", "stopSequences", "temperature", "topP", "topKReturn"]
  else if vendor = "amazon" then ["maxTokenCount", "stopSequences", "temperature", "topP"]
  else if vendor = "anthropic" then ["max_tokens", "stop_sequences", "temperature", "top_p", "top_k"]
  else if vendor = "cohere" then ["max_tokens", "temperature", "p", "k"]
  else if vendor = "meta" then ["max_gen_len", "temperature", "top_p"]
  else if vendor = "mistral" then ["max_tokens", "temperature", "top_p", "top_k"]
  else []

/-- `BedrockParams` dataclass (field order matters: `asdict` preserves it). -/
structure BedrockParams where
  max_tokens : ℚ
  stop_sequences : List String
  temperature : ℚ
  top_p : ℚ
  deriving DecidableEq

def titanMapping : List (String × String) :=
  [("max_tokens", "maxTokenCount"), ("stop_sequences", "stopSequences"),
   ("temperature", "temperature"), ("top_p", "topP")]

def anthropicMapping : List (String × String) :=
  [("max_tokens", "max_tokens"), ("stop_sequences", "stop_sequences"),
   ("temperature", "temperature"), ("top_p", "top_p")]

def mistralMapping : List (String × String) :=
  [("max_tokens", "max_tokens"), ("temperature", "temperature"), ("top_p", "top_p")]

def cohereMapping : List (String × String) :=
  [("max_tokens", "max_tokens"), ("temperature", "temperature")]

def metaMapping : List (String × String) :=
  [("max_tokens", "max_gen_len"), ("temperature", "temperature"), ("top_p", "top_p")]

def ai21Mapping : List (String × String) :=
  [("max_tokens", "maxTokens"), ("stop_sequences", "stopSequences"),
   ("temperature", "temperature"), ("top_p", "topP")]

/-- `ModelSpecificParams.__maps__`: per-full-model-id mapping table. -/
def modelSpecificMaps : List (String × List (String × String)) :=
  [("anthropic.claude-3-sonnet-20240229-v1:0", anthropicMapping),
   ("anthropic.claude-3-haiku-20240307-v1:0", anthropicMapping),
   ("anthropic.claude-v2:1", anthropicMapping),
   ("anthropic.claude-v2", anthropicMapping),
   ("anthropic.claude-v1", anthropicMapping),
   ("anthropic.claude-instant-v1", anthropicMapping),
   ("mistral.mistral-large-2402-v1:0", mistralMapping),
   ("mistral.mixtral-8x7b-instruct-v0:1", mistralMapping),
   ("mistral.mistral-7b-instruct-v0:2", mistralMapping),
   ("amazon.titan-text-express-v1", titanMapping),
   ("amazon.titan-text-lite-v1", titanMapping),
   ("meta.llama2-70b-chat-v1", metaMapping),
   ("meta.llama2-13b-chat-v1", metaMapping),
   ("cohere.command-text-v14", cohereMapping),
   ("cohere.command-light-text-v14", cohereMapping),
   ("ai21.j2-ultra-v1", ai21Mapping),
   ("ai21.j2-mid-v1", ai21Mapping)]

/-- `ModelSpecificParams.__init__`: `self._mapping = self.__maps__[model_id]`
raises `KeyError` for ids absent from the table. -/
def modelSpecificParamsInit (model_id : String) : Except String (List (String × String)) :=
  match modelSpecificMaps.lookup model_id with
  | some m => .ok m
  | none => .error ("KeyError: " ++ model_id)

/-- `ModelSpecificParams.to_dict`: iterate `asdict(self._params)` in field
order, keep the fields present in the mapping, rename each. -/
def msToDict (p : BedrockParams) (mapping : List (String × String)) : List (String × BVal) :=
  ([("max_tokens", BVal.num p.max_tokens), ("stop_sequences", BVal.strs p.stop_sequences),
    ("temperature", BVal.num p.temperature), ("top_p", BVal.num p.top_p)]).filterMap
    (fun kv => (mapping.lookup kv.1).map (fun nk => (nk, kv.2)))

/-- `MAX_DOC_LENGTH_DIC` (identical in `extract_attributes.py` and
`extract_attributes_llm_image.py`, including the mistyped trailing-comma
key `"ai21.j2-mid-v1,"`). -/
def maxDocLengthDic : List (String × ℕ) :=
  [("anthropic.claude-3-opus-20240229-v1:0", 200000),
   ("anthropic.claude-3-sonnet-20240229-v1:0", 200000),
   ("anthropic.claude-3-haiku-20240307-v1:0", 200000),
   ("anthropic.claude-v2:1", 200000),
   ("anthropic.claude-v2", 100000),
   ("anthropic.claude-instant-v1", 100000),
   ("mistral.mistral-large-2402-v1:0", 32000),
   ("mistral.mixtral-8x7b-instruct-v0:1", 32000),
   ("mistral.mistral-7b-instruct-v0:2", 32000),
   ("amazon.titan-text-premier-v1:0", 32000),
   ("amazon.titan-text-express-v1", 8000),
   ("amazon.titan-text-lite-v1", 4000),
   ("meta.llama3-70b-instruct-v1:0", 8000),
   ("meta.llama3-8b-instruct-v1:0", 8000),
   ("meta.llama2-70b-chat-v1", 4096),
   ("meta.llama2-13b-chat-v1", 4096),
   ("cohere.command-r-plus-v1:0", 128000),
   ("cohere.command-r-v1:0", 128000),
   ("cohere.command-text-v14", 4000),
   ("cohere.command-light-text-v14", 4000),
   ("ai21.j2-ultra-v1", 8191),
   ("ai21.j2-mid-v1,", 8191)]

/-! ## The text-extraction handler's per-request parameter mutation
(`extract_attributes.py` lines 107-113; the module-level `GENERATOR_CONFIG`
dict survives between invocations of a warm Lambda container). -/

/-- `GENERATOR_CONFIG` as module state: the initial dict has no
`temperature` key (it is assigned per request). -/
structure GenCfgState where
  top_p : ℚ
  top_k : ℚ
  stop_words : List String
  max_tokens : ℚ
  temperature : Option ℚ
  deriving DecidableEq

def generatorConfigInit : GenCfgState :=
  { top_p := 1, top_k := 50, stop_words := [], max_tokens := 4096, temperature := none }

/-- Python `model_id.split(".")[0]`. -/
def firstDotComponent (s : String) : String :=
  String.mk (s.data.takeWhile (fun c => c ≠ '.'))

/-- One request's parameter preparation: assign `temperature`, override
`max_tokens` for `meta` models, then adapt.  Returns the mutated module
state together with the adapted parameters. -/
def handlerModelParamsStep (st : GenCfgState) (model_id : String) (temperature : ℚ) :
    GenCfgState × List (String × BVal) :=
  let st1 := { st with temperature := some temperature }
  let st2 := if firstDotComponent model_id = "meta" then { st1 with max_tokens := 2048 } else st1
  let cfg : GeneratorConfig :=
    { top_p := st2.top_p, top_k := st2.top_k, stop_words := st2.stop_words,
      max_tokens := st2.max_tokens, temperature := temperature }
  (st2, get_model_params model_id cfg)

/-! ## The attribute schema string
(`extract_attributes.py` lines 119-128 build it; line 149 overwrites it). -/

structure AttrSpec where
  name : String
  description : String
  ty : Option String
  deriving DecidableEq

def asciiLower (c : Char) : Char :=
  if 'A' ≤ c ∧ c ≤ 'Z' then Char.ofNat (c.toNat + 32) else c

def lowerStr (s : String) : String := String.mk (s.data.map asciiLower)

def digitChar (n : ℕ) : Char := Char.ofNat (48 + n % 10)

def natDigitsF : ℕ → ℕ → List Char
  | 0, _ => []
  | f + 1, n => if n < 10 then [digitChar n] else natDigitsF f (n / 10) ++ [digitChar (n % 10)]

/-- Decimal rendering of a natural number (for `f"{i+1}. "` etc.). -/
def natStr (n : ℕ) : String := String.mk (natDigitsF (n + 1) n)

/-- The loop of lines 123-128: numbered, order-preserving rendering
`"{i+1}. {name}: {description}"` plus an optional `" (must be {type})."`
note and a newline per attribute. -/
def buildAttributesStr (attrs : List AttrSpec) : String :=
  go 0 attrs
where
  go : ℕ → List AttrSpec → String
    | _, [] => ""
    | i, a :: t =>
      natStr (i + 1) ++ ". " ++ a.name ++ ": " ++ a.description
        ++ (match a.ty with
            | some ty => if lowerStr ty ≠ "auto" then " (must be " ++ lowerStr ty ++ ")." else ""
            | none => "")
        ++ "\n" ++ go (i + 1) t

/-- What actually reaches the `{attributes}` placeholder: line 149
reassigns `attributes_str` to a hardcoded demo string, discarding the
rendering built from the request. -/
def handlerAttributesString (attrs : List AttrSpec) : String :=
  let _attributes_str := buildAttributesStr attrs
  let attributes_str := "claimer name, car model, accident description"
  attributes_str

/-! ## Prompt template assembly
(`assets/lambda/backend/extract_attributes/prompt.py`).  Literal braces in
the template strings are written with `\x7b`/`\x7d` escapes. -/

def strReplace (s pat rep : String) : String :=
  String.mk (pyReplace pat.data rep.data s.data)

def PROMPT_DEFAULT_HEADER : String :=
  "You are an AI assistant who is expert in extracting information from documents.\n"
  ++ "Carefully read the document given below in <document></document> tags.\n"
  ++ "Extract attributes listed below in <attributes></attributes> tags from the document.\n"
  ++ "The answer must contain the extracted attributes in JSON format. Do NOT include any other information in the answer.\n"
  ++ "If the attribute has multiple values, provide them as a list in this format: [\"value1\", \"value2\", \"value3\"].\n"
  ++ "If the attribute requires providing a description or free-form text, the value of the attribute must contain this text.\n"
  ++ "Note that some attributes are not directly stated in the document, but their values are implicitly defined in the text.\n"
  ++ "Do your best to extract a full value for each requested attribute from the document.\n"
  ++ "If provided, you must also follow the additional instructions in <instructions></instructions>.\n"
  ++ "Think step by step. First, summarize your thoughts in 2-3 sentences using <thinking></thinking> tags. Next, output the JSON in <json></json> tags. Do NOT include any other information in the answer. Remember that the response MUST be a valid JSON file.\n"
  ++ "\n"
  ++ "Human:\n"
  ++ "<example>\n"
  ++ "Document:\n"
  ++ "<document>\n"
  ++ "I would like to apologize for the delay in the delivery of the ordered goods. Unfortunately, there was a delay due to a technical problem in our warehouse.\n"
  ++ "Your order 754263 has now been shipped and you should receive the goods within the next 2-3 business days. I ask for your understanding regarding these inconveniences.\n"
  ++ "Kind regards,\n"
  ++ "Nikita Schulz\n"
  ++ "Customer Service ABC GmbH\n"
  ++ "</document>\n"
  ++ "\n"
  ++ "Attributes to be extracted:\n"
  ++ "<attributes>\n"
  ++ "1. customer_name: name of the customer who wrote the email\n"
  ++ "2. shipment_delay_complaint: whether the email is from a customer complaining about shipment delays\n"
  ++ "3. urgency_score: how soon we should react to the customer email on a scale from 0 to 1\n"
  ++ "</attributes>\n"
  ++ "\n"
  ++ "Output:\n"
  ++ "<thinking>\n"
  ++ "The document mentions the customer name in the email signature: Nikita Schulz. In the email, the customer is complaining about shipment delays. There are no data points that indicate very high urgency, so I will assign a neutral score of 0.5/\n"
  ++ "</thinking>\n"
  ++ "<json>\n"
  ++ "\x7b\x7b\n"
  ++ "    \"customer_name\": \"Nikita Schulz\",\n"
  ++ "    \"shipment_delay_complaint\": true,\n"
  ++ "    \"urgency_score\": 0.5,\n"
  ++ "\x7d\x7d\n"
  ++ "</json>\n"
  ++ "</example>\n"

def PROMPT_DEFAULT_TAIL : String :=
  "Document:\n<document>\n\x7bdocument\x7d\n</document>\n\n"
  ++ "Attributes to be extracted:\n<attributes>\n\x7battributes\x7d\n</attributes>\n\n"
  ++ "<document_level_instructions_placeholder>\n\nOutput:"

def PROMPT_FEW_SHOT : String :=
  "<example>\nDocument:\n<document>\n\x7bfew_shot_input_placeholder\x7d\n</document>\n\n"
  ++ "Attributes to be extracted:\n<attributes>\n\x7b\x7battributes\x7d\x7d\n</attributes>\n\n"
  ++ "<document_level_instructions_placeholder>\n\nOutput:\n\x7bfew_shot_output_placeholder\x7d\n</example>\n\n"

def PROMPT_INSTRUCTIONS : String :=
  "You must follow these additional instructions:\n<instructions>\n\x7binstructions\x7d\n</instructions>\n"

/-- `PROMPT_FEW_SHOT.format(few_shot_input_placeholder=..., ...)`: the two
keyword fields are substituted and the doubled braces around `attributes`
collapse to single ones.  Sequential replacement is equivalent to Python's
one-pass `str.format` on this template (no overlapping occurrences). -/
def fewShotBlock (i : ℕ) : String :=
  strReplace
    (strReplace
      (strReplace
        (strReplace PROMPT_FEW_SHOT
          "\x7bfew_shot_input_placeholder\x7d" ("\x7bfew_shot_input_" ++ natStr i ++ "\x7d"))
        "\x7bfew_shot_output_placeholder\x7d" ("\x7bfew_shot_output_" ++ natStr i ++ "\x7d"))
      "\x7b\x7b" "\x7b")
    "\x7d\x7d" "\x7d"

/-- `load_prompt_template(num_few_shots, instructions)` returning the pair
(template text, declared `input_variables`).  Note the faithful rendering
of `input_variables += "instructions"`: the list is extended with the
twelve single-character strings of `"instructions"`. -/
def load_prompt_template (num_few_shots : ℕ) (instructions : String) : String × List String :=
  let input_variables :=
    ["document", "attributes"]
      ++ (List.range num_few_shots).flatMap
        (fun i => ["few_shot_input_" ++ natStr i, "few_shot_output_" ++ natStr i])
  let prompt :=
    (List.range num_few_shots).foldl (fun acc i => acc ++ fewShotBlock i) PROMPT_DEFAULT_HEADER
      ++ PROMPT_DEFAULT_TAIL
  if (pyStrip instructions.data).isEmpty then
    (strReplace prompt "\n<document_level_instructions_placeholder>\n" "\n", input_variables)
  else
    (strReplace prompt "<document_level_instructions_placeholder>" PROMPT_INSTRUCTIONS,
     input_variables ++ "instructions".data.map (fun c => String.mk [c]))

/-! ## Table reconciliation (`assets/lambda/backend/run_textract/utils.py`,
`compile_tables`).  A fragment carries what the code reads from the
textractor document: the title words (if a title was detected), the running
title/header text of its page, and its pandas columns and rows.  The page
number itself is only used to locate that page layout, so it is inlined. -/

inductive ColName : Type where
  | named : String → ColName
  | idx : ℕ → ColName
  deriving DecidableEq

structure TableFragment where
  titleWords : Option (List String)
  pageTitle : String
  pageHeader : String
  columns : List ColName
  rows : List (List String)
  deriving DecidableEq

structure LogicalTable where
  columns : List ColName
  rows : List (List String)
  deriving DecidableEq

def joinWords : List String → String
  | [] => ""
  | [w] => w
  | w :: w2 :: ws => w ++ " " ++ joinWords (w2 :: ws)

/-- Python `page_text.find(t) != -1`. -/
def pyContains (hay sub : String) : Bool := hasSub sub.data hay.data

/-- The title given to fragment `i` (0-based): the joined title words,
demoted to the `table_{i+1}` placeholder when absent or when it duplicates
the page's running title or header. -/
def fragmentTitle (i : ℕ) (f : TableFragment) : String :=
  match f.titleWords with
  | some ws =>
    let t := joinWords ws
    if pyContains f.pageTitle t || pyContains f.pageHeader t then "table_" ++ natStr (i + 1)
    else t
  | none => "table_" ++ natStr (i + 1)

/-- Default positional pandas columns `0..n-1`. -/
def colsDefaultRange (cols : List ColName) : Bool :=
  cols = (List.range cols.length).map ColName.idx

/-- Overwriting insertion with Python-dict semantics (existing key keeps
its position, new key appended). -/
def setAssoc : List (String × LogicalTable) → String → LogicalTable → List (String × LogicalTable)
  | [], k, v => [(k, v)]
  | (k0, v0) :: t, k, v =>
    if k0 = k then (k0, v) :: t else (k0, v0) :: setAssoc t k v

/-- `all_tables[last_title] = pd.concat([all_tables[last_title], pt])`:
append rows under the existing columns; `none` models the `KeyError` when
the key is absent. -/
def appendRowsAssoc : List (String × LogicalTable) → String → List (List String) →
    Option (List (String × LogicalTable))
  | [], _, _ => none
  | (k0, v0) :: t, k, rs =>
    if k0 = k then some ((k0, { v0 with rows := v0.rows ++ rs }) :: t)
    else (appendRowsAssoc t k rs).map (fun t2 => (k0, v0) :: t2)

/-- The merge test of `compile_tables` for fragment `i` against the last
emitted table. -/
def mergesWithLast (lastTitle : String) (lastCols : List ColName) (i : ℕ)
    (newTitle : String) (cols : List ColName) : Bool :=
  (newTitle = lastTitle || newTitle = "table_" ++ natStr (i + 1))
    && cols.length = lastCols.length
    && (cols = lastCols || colsDefaultRange cols)

/-- One iteration of the `for i, table in enumerate(document.tables)` loop. -/
def compileStep (i : ℕ) (st : List (String × LogicalTable) × String × List ColName)
    (f : TableFragment) : Option (List (String × LogicalTable) × String × List ColName) :=
  let (allTables, lastTitle, lastCols) := st
  let newTitle := fragmentTitle i f
  if mergesWithLast lastTitle lastCols i newTitle f.columns then
    (appendRowsAssoc allTables lastTitle f.rows).map (fun at2 => (at2, lastTitle, lastCols))
  else
    some (setAssoc allTables newTitle ⟨f.columns, f.rows⟩, newTitle, f.columns)

def compileTablesGo : ℕ → (List (String × LogicalTable) × String × List ColName) →
    List TableFragment → Option (List (String × LogicalTable))
  | _, st, [] => some st.1
  | i, st, f :: fs =>
    match compileStep i st f with
    | some st2 => compileTablesGo (i + 1) st2 fs
    | none => none

/-- `compile_tables(document)`: fold the fragments in document order;
`none` models the (unreachable in practice) `KeyError` path. -/
def compile_tables (frags : List TableFragment) : Option (List (String × LogicalTable)) :=
  compileTablesGo 0 ([], "", []) frags

/-! ## Multimodal content packaging
(`assets/lambda/backend/extract_attributes_llm/helpers.py`,
`create_human_message_with_imgs`; the identical helper ships with the
image-extraction lambda).  PDF rasterization (`pdf2image` + PIL JPEG
re-encoding) and file reading are external, passed as functions producing
the raw byte buffers that the code then base64-encodes. -/

def b64alphabet : List Char :=
  "ABCDEFGHIJKLMNOPQRSTUVWXYZabcdefghijklmnopqrstuvwxyz0123456789+/".data

def b64idx (n : ℕ) : Char := b64alphabet.getD n 'A'

def base64Chars : List ℕ → List Char
  | [] => []
  | [a] => [b64idx (a / 4), b64idx ((a % 4) * 16), '=', '=']
  | [a, b] => [b64idx (a / 4), b64idx ((a % 4) * 16 + b / 16), b64idx ((b % 16) * 4), '=']
  | a :: b :: c :: rest =>
    [b64idx (a / 4), b64idx ((a % 4) * 16 + b / 16), b64idx ((b % 16) * 4 + c / 64),
     b64idx (c % 64)] ++ base64Chars rest

/-- `base64.b64encode(...).decode("utf-8")`. -/
def base64Encode (bs : List ℕ) : String := String.mk (base64Chars (bs.map (· % 256)))

def pyEndsWith (suf s : String) : Bool := chPre suf.data.reverse s.data.reverse

inductive ContentBlock : Type where
  | image : String → String → ContentBlock
  | text : String → ContentBlock
  deriving DecidableEq

structure ChatMessage where
  role : String
  content : List ContentBlock
  deriving DecidableEq

/-- `create_human_message_with_imgs(text, file, max_pages)`.  Exceptions
(`ValueError` for an empty page set, the unbound-local `NameError` for
unhandled extensions) are modelled as `Except.error`. -/
def create_human_message_with_imgs (rasterizePdf : String → List (List ℕ))
    (readFileBytes : String → List ℕ) (text : String) (file : Option String)
    (max_pages : ℕ) : Except String ChatMessage :=
  match file with
  | none => .ok ⟨"user", [.text text]⟩
  | some f =>
    if f = "" then .ok ⟨"user", [.text text]⟩
    else
      let fl := lowerStr f
      let imgs? : Except String (List String) :=
        if pyEndsWith ".pdf" fl then .ok ((rasterizePdf f).map base64Encode)
        else if pyEndsWith ".jpeg" fl || pyEndsWith ".jpg" fl || pyEndsWith ".png" fl then
          .ok [base64Encode (readFileBytes f)]
        else .error "NameError: name base64_img_strs is not defined"
      match imgs? with
      | .error e => .error e
      | .ok imgs =>
        let imgs := imgs.take max_pages
        if imgs.isEmpty then
          .error "ValueError: No images found in the file. Consider uploading a different file or adjust cutoff settings."
        else
          .ok ⟨"user", imgs.map (fun d => ContentBlock.image "image/jpeg" d) ++ [.text text]⟩

/-! ## Definitions supporting the round-trip analysis of `parse_json_string` -/

/-- The serialization tail of the remaining elements of a list: `", x"` per
element (`dumpsItems (cons x t) = dumpsV x ++ sepItems t`). -/
def sepItems : PyItems → List Char
  | .nil => []
  | .cons x t => ',' :: ' ' :: (dumpsV x ++ sepItems t)

/-- The serialization tail of the remaining entries of a dict. -/
def sepPairs : PyPairs → List Char
  | .nil => []
  | .cons k v t => ',' :: ' ' :: (dumpsV k ++ ':' :: ' ' :: (dumpsV v ++ sepPairs t))

/-- Admissible continuations after a serialized value inside a dump:
nothing, or a separator / closer / key-value colon. -/
def bOk : List Char → Bool
  | [] => true
  | c :: _ => c = ',' || c = '\x7d' || c = ']' || c = ':'

/-- Characters that can start a serialized JSON-ok value. -/
def dumpHeadOk (c : Char) : Prop :=
  c = '-' ∨ c = '"' ∨ c = '[' ∨ c = '\x7b' ∨ c.isDigit = true

/-- Top-level structured values (dict or list), as in the round-trip
claim. -/
def topStruct : PyVal → Bool
  | .plist _ => true
  | .pdict _ => true
  | _ => false

/-- `json.dumps(v)` as a string. -/
def dumpsStr (v : PyVal) : String := String.mk (dumpsV v)

/-! ## Spec-side definitions used to compare code with the spec's wording -/

/-- The merge rule as the spec states it: the fragment continues the last
logical table when its title matches the last title (or is the
auto-generated placeholder) and its column signature matches (identical
named columns, or default positional columns at the same cardinality). -/
def specMergeCond (lastTitle : String) (lastCols : List ColName) (i : ℕ)
    (newTitle : String) (cols : List ColName) : Prop :=
  (newTitle = lastTitle ∨ newTitle = "table_" ++ natStr (i + 1))
    ∧ (cols = lastCols ∨ (colsDefaultRange cols = true ∧ cols.length = lastCols.length))

/-- The message of the empty-page-set failure (`ValueError`; the spec's
taxonomy calls this case `NoPagesFoundError`). -/
def noPagesFoundMsg : String :=
  "ValueError: No images found in the file. Consider uploading a different file or adjust cutoff settings."

/-- The default generation config of the text-extraction lambda with a
request temperature of `0` (used in concrete instances below). -/
def defaultCfg0 : GeneratorConfig :=
  { top_p := 1, top_k := 50, stop_words := [], max_tokens := 4096, temperature := 0 }

/-! ## Helper lemmas -/

theorem pySliceTo_natCast (l : List (List Char)) (n : ℕ) : pySliceTo l (n : ℤ) = l.take n := by
  simp [pySliceTo, Int.toNat_natCast, Int.natCast_nonneg]

theorem pySliceFrom_natCast (l : List (List Char)) (n : ℕ) : pySliceFrom l (n : ℤ) = l.drop n := by
  simp [pySliceFrom, Int.toNat_natCast, Int.natCast_nonneg]

theorem truncLoop_const (cand : ℤ → List Char) (ok : List Char → Bool) (d : List Char)
    (h : ∀ m, cand m = d) :
    ∀ ms : List ℤ, ms ≠ [] → truncLoop cand ok ms = d := by
  intro ms
  induction ms with
  | nil => intro hne; exact absurd rfl hne
  | cons m rest ih =>
    intro _
    cases rest with
    | nil => simp [truncLoop, h]
    | cons m2 r2 =>
      rw [truncLoop, h m]
      split
      · rfl
      · exact ih (by simp)

/-! ## Scanning lemmas for the delimiter extraction -/

theorem chPre_append (p r : List Char) : chPre p (p ++ r) = true := by
  induction p with
  | nil => rfl
  | cons c cs ih => simp [chPre, ih]

theorem chPre_iff_exists (p l : List Char) : chPre p l = true ↔ ∃ t, l = p ++ t := by
  induction p generalizing l with
  | nil => simp [chPre]
  | cons c cs ih =>
    cases l with
    | nil => simp [chPre]
    | cons d ds =>
      simp only [chPre, Bool.and_eq_true, decide_eq_true_eq, ih, List.cons_append,
        List.cons.injEq]
      constructor
      · rintro ⟨rfl, t, rfl⟩
        exact ⟨t, rfl, rfl⟩
      · rintro ⟨t, rfl, rfl⟩
        exact ⟨rfl, t, rfl⟩

theorem hasSub_cons (p : List Char) (c : Char) (cs : List Char) :
    hasSub p (c :: cs) = (chPre p (c :: cs) || hasSub p cs) := by
  unfold hasSub
  rw [splitFirst]
  cases h : chPre p (c :: cs) <;> simp [h, Option.isSome_map]

theorem hasSub_iff (p l : List Char) : hasSub p l = true ↔ ∃ a b, l = a ++ p ++ b := by
  induction l with
  | nil =>
    unfold hasSub splitFirst
    cases p with
    | nil => simp
    | cons c cs => simp
  | cons c cs ih =>
    rw [hasSub_cons]
    simp only [Bool.or_eq_true, ih, chPre_iff_exists]
    constructor
    · rintro (⟨t, ht⟩ | ⟨a, b, rfl⟩)
      · exact ⟨[], t, by simpa using ht⟩
      · exact ⟨c :: a, b, rfl⟩
    · rintro ⟨a, b, h⟩
      cases a with
      | nil => exact Or.inl ⟨b, by simpa using h⟩
      | cons a0 as =>
        simp only [List.cons_append, List.cons.injEq] at h
        exact Or.inr ⟨as, b, h.2⟩

theorem prefix_shrink (p x y : List Char) (m : ℕ) (hpx : ∃ t, x ++ y = p ++ t)
    (hlen : p.length ≤ x.length + m) : ∃ t, x ++ y.take m = p ++ t := by
  obtain ⟨t, ht⟩ := hpx
  refine ⟨(x ++ y.take m).drop p.length, ?_⟩
  have htake : (x ++ y.take m).take p.length = p := by
    have h1 : (x ++ y).take p.length = p := by
      rw [ht, List.take_left]
    have h2 : (x ++ y.take m).take p.length = (x ++ y).take p.length := by
      rw [List.take_append_eq_append_take, List.take_append_eq_append_take, List.take_take,
        min_eq_left (by omega : p.length - x.length ≤ m)]
    rw [h2, h1]
  conv_lhs => rw [← List.take_append_drop p.length (x ++ y.take m)]
  rw [htake]

theorem splitFirst_exact (p : List Char) (hp : p ≠ []) :
    ∀ l r, hasSub p (l ++ p.dropLast) = false → splitFirst p (l ++ (p ++ r)) = some (l, r) := by
  have hplen : 0 < p.length := List.length_pos.mpr hp
  intro l
  induction l with
  | nil =>
    intro r _
    rw [List.nil_append]
    cases hp3 : p ++ r with
    | nil =>
      cases p with
      | nil => exact absurd rfl hp
      | cons c cs => simp at hp3
    | cons c cs =>
      rw [splitFirst, ← hp3]
      simp only [chPre_append, if_true]
      rw [List.drop_left]
  | cons a l ih =>
    intro r hS
    have hS2 : hasSub p (l ++ p.dropLast) = false := by
      rw [List.cons_append, hasSub_cons] at hS
      simp only [Bool.or_eq_false_iff] at hS
      exact hS.2
    have hnc : chPre p ((a :: l) ++ (p ++ r)) = false := by
      by_contra hc
      rw [Bool.not_eq_false, chPre_iff_exists] at hc
      have hocc : ∃ t, (a :: l) ++ p.dropLast = p ++ t := by
        have hshr := prefix_shrink p (a :: l) (p ++ r) (p.length - 1) hc
          (by simp only [List.length_cons]; omega)
        have htk : (p ++ r).take (p.length - 1) = p.dropLast := by
          rw [List.take_append_eq_append_take]
          have h0 : p.length - 1 - p.length = 0 := by omega
          rw [h0, List.take_zero, List.append_nil, List.dropLast_eq_take]
        rwa [htk] at hshr
      have hcontr : hasSub p ((a :: l) ++ p.dropLast) = true := by
        rw [hasSub_iff]
        obtain ⟨t, ht⟩ := hocc
        exact ⟨[], t, by simpa using ht⟩
      rw [hcontr] at hS
      cases hS
    simp only [List.cons_append] at hnc ⊢
    rw [splitFirst]
    simp only [hnc, Bool.false_eq_true, if_false]
    rw [← List.cons_append] at hnc
    rw [ih r hS2]
    rfl

theorem reverse_dropLast_reverse (l : List Char) : l.reverse.dropLast.reverse = l.drop 1 := by
  cases l with
  | nil => rfl
  | cons c t => simp

theorem rsplitLastBefore_exact (p : List Char) (hp : p ≠ []) (d b : List Char)
    (hb : hasSub p (p.drop 1 ++ b) = false) :
    rsplitLastBefore p (d ++ p ++ b) = d := by
  have hrev : hasSub p.reverse (b.reverse ++ p.reverse.dropLast) = false := by
    by_contra hc
    rw [Bool.not_eq_false, hasSub_iff] at hc
    obtain ⟨x, y, hxy⟩ := hc
    have : p.drop 1 ++ b = y.reverse ++ p ++ x.reverse := by
      have := congrArg List.reverse hxy
      simp only [List.reverse_append, List.reverse_reverse] at this
      rw [← reverse_dropLast_reverse p]
      simp only [this, List.reverse_append, List.reverse_reverse]
      simp [List.append_assoc]
    rw [show hasSub p (p.drop 1 ++ b) = true from (hasSub_iff _ _).mpr
      ⟨y.reverse, x.reverse, by rw [this]⟩] at hb
    cases hb
  unfold rsplitLastBefore
  have hsp : splitFirst p.reverse ((d ++ p ++ b).reverse) = some (b.reverse, d.reverse) := by
    have harr : (d ++ p ++ b).reverse = b.reverse ++ (p.reverse ++ d.reverse) := by
      simp [List.reverse_append, List.append_assoc]
    rw [harr]
    exact splitFirst_exact p.reverse (by simpa using hp) b.reverse d.reverse hrev
  rw [hsp]
  simp

/-! ## Character classes of serialized values -/

theorem char_digit_bounds (c : Char) (h : c.isDigit = true) : 48 ≤ c.toNat ∧ c.toNat ≤ 57 := by
  simp [Char.isDigit] at h
  exact h

theorem digit_ne (c : Char) (h : c.isDigit = true) (d : Char)
    (hd : d.toNat < 48 ∨ 57 < d.toNat) : ¬ c = d := by
  intro e
  obtain ⟨h1, h2⟩ := char_digit_bounds c h
  subst e
  omega

theorem chPre_head_ne (k c : Char) (ks cs : List Char) (h : ¬ k = c) :
    chPre (k :: ks) (c :: cs) = false := by
  simp [chPre, h]

theorem canonDigits_shape (ds : List Char) (h : canonDigits ds = true) :
    ∃ d t, ds = d :: t ∧ d.isDigit = true ∧ ∀ c ∈ ds, c.isDigit = true := by
  cases ds with
  | nil => simp [canonDigits] at h
  | cons d t =>
    simp only [canonDigits, Bool.and_eq_true, List.all_eq_true, List.isEmpty_cons,
      Bool.not_false] at h
    exact ⟨d, t, rfl, h.1.2 d (by simp), fun c hc => h.1.2 c hc⟩

theorem asciiPrint_of_digit (c : Char) (h : c.isDigit = true) : asciiPrint c = true := by
  obtain ⟨h1, h2⟩ := char_digit_bounds c h
  simp only [asciiPrint, Bool.and_eq_true, decide_eq_true_eq]
  omega

theorem jsonEscape_print : ∀ (s : List Char), (∀ c ∈ s, asciiPrint c = true) →
    ∀ c ∈ jsonEscape s, asciiPrint c = true := by
  intro s
  induction s with
  | nil => intro _ c hc; simp [jsonEscape] at hc
  | cons c0 cs ih =>
    intro h d hd
    have hc0 := h c0 (by simp)
    have hcs : ∀ c ∈ cs, asciiPrint c = true := fun e he => h e (by simp [he])
    unfold jsonEscape at hd
    split at hd
    · simp only [List.mem_cons] at hd
      rcases hd with h1 | h1 | h1
      · subst h1; decide
      · subst h1; decide
      · exact ih hcs d h1
    · split at hd
      · simp only [List.mem_cons] at hd
        rcases hd with h1 | h1 | h1
        · subst h1; decide
        · subst h1; decide
        · exact ih hcs d h1
      · simp only [List.mem_cons] at hd
        rcases hd with h1 | h1
        · subst h1; exact hc0
        · exact ih hcs d h1

mutual

theorem dumpsV_print : ∀ (v : PyVal), jsonOkV v = true → ∀ c ∈ dumpsV v, asciiPrint c = true
  | .pint neg ds, h, c, hc => by
    simp only [jsonOkV, Bool.and_eq_true] at h
    obtain ⟨d0, t0, hds, hd0, hall⟩ := canonDigits_shape ds h.1
    rw [dumpsV, List.mem_append] at hc
    rcases hc with h1 | h1
    · cases neg with
      | false => simp at h1
      | true => simp at h1; subst h1; decide
    · exact asciiPrint_of_digit c (hall c h1)
  | .pfloat neg ip fp, h, c, hc => by
    simp only [jsonOkV, Bool.and_eq_true] at h
    obtain ⟨d0, t0, hds, hd0, hall⟩ := canonDigits_shape ip h.1.1
    have hfp : ∀ c ∈ fp, c.isDigit = true := List.all_eq_true.mp h.2
    rw [dumpsV, List.mem_append] at hc
    rcases hc with h1 | h1
    · rw [List.mem_append] at h1
      rcases h1 with h1 | h1
      · cases neg with
        | false => simp at h1
        | true => simp at h1; subst h1; decide
      · exact asciiPrint_of_digit c (hall c h1)
    · rw [List.mem_cons] at h1
      rcases h1 with h1 | h1
      · subst h1; decide
      · exact asciiPrint_of_digit c (hfp c h1)
  | .pstr s, h, c, hc => by
    simp only [jsonOkV] at h
    rw [dumpsV, List.mem_append] at hc
    rcases hc with h1 | h1
    · rw [List.mem_cons] at h1
      rcases h1 with h1 | h1
      · subst h1; decide
      · exact jsonEscape_print s.data (List.all_eq_true.mp h) c h1
    · simp at h1; subst h1; decide
  | .pbool b, h, c, hc => by simp [jsonOkV] at h
  | .pnone, h, c, hc => by simp [jsonOkV] at h
  | .plist xs, h, c, hc => by
    simp only [jsonOkV] at h
    rw [dumpsV, List.mem_append] at hc
    rcases hc with h1 | h1
    · rw [List.mem_cons] at h1
      rcases h1 with h1 | h1
      · subst h1; decide
      · exact dumpsItems_print xs h c h1
    · simp at h1; subst h1; decide
  | .pdict es, h, c, hc => by
    simp only [jsonOkV] at h
    rw [dumpsV, List.mem_append] at hc
    rcases hc with h1 | h1
    · rw [List.mem_cons] at h1
      rcases h1 with h1 | h1
      · subst h1; decide
      · exact dumpsPairs_print es h c h1
    · simp at h1; subst h1; decide
  | .pset xs, h, c, hc => by simp [jsonOkV] at h

theorem dumpsItems_print : ∀ (xs : PyItems), jsonOkItems xs = true →
    ∀ c ∈ dumpsItems xs, asciiPrint c = true
  | .nil, _, c, hc => by simp [dumpsItems] at hc
  | .cons x .nil, h, c, hc => by
    simp only [jsonOkItems, Bool.and_eq_true] at h
    rw [dumpsItems] at hc
    exact dumpsV_print x h.1 c hc
  | .cons x (.cons y t), h, c, hc => by
    simp only [jsonOkItems, Bool.and_eq_true] at h
    rw [dumpsItems, List.mem_append, List.mem_cons, List.mem_cons] at hc
    rcases hc with h1 | h1 | h1 | h1
    · exact dumpsV_print x h.1 c h1
    · subst h1; decide
    · subst h1; decide
    · exact dumpsItems_print (.cons y t)
        (by simp only [jsonOkItems, Bool.and_eq_true]; exact h.2) c h1

theorem dumpsPairs_print : ∀ (es : PyPairs), jsonOkPairs es = true →
    ∀ c ∈ dumpsPairs es, asciiPrint c = true
  | .nil, _, c, hc => by simp [dumpsPairs] at hc
  | .cons k v .nil, h, c, hc => by
    simp only [jsonOkPairs, Bool.and_eq_true] at h
    have hk : jsonOkV k = true := by
      obtain ⟨⟨hm, _⟩, _⟩ := h
      cases k <;> simp_all [jsonOkV]
    rw [dumpsPairs, List.mem_append, List.mem_cons, List.mem_cons] at hc
    rcases hc with h1 | h1 | h1 | h1
    · exact dumpsV_print k hk c h1
    · subst h1; decide
    · subst h1; decide
    · exact dumpsV_print v h.1.2 c h1
  | .cons k v (.cons k2 v2 t), h, c, hc => by
    simp only [jsonOkPairs, Bool.and_eq_true] at h
    have hk : jsonOkV k = true := by
      obtain ⟨⟨hm, _⟩, _⟩ := h
      cases k <;> simp_all [jsonOkV]
    rw [dumpsPairs, List.mem_append] at hc
    rcases hc with h1 | h1
    · rw [List.mem_append, List.mem_cons, List.mem_cons] at h1
      rcases h1 with h1 | h1 | h1 | h1
      · exact dumpsV_print k hk c h1
      · subst h1; decide
      · subst h1; decide
      · exact dumpsV_print v h.1.2 c h1
    · rw [List.mem_cons, List.mem_cons] at h1
      rcases h1 with h1 | h1 | h1
      · subst h1; decide
      · subst h1; decide
      · exact dumpsPairs_print (.cons k2 v2 t)
          (by simp only [jsonOkPairs, Bool.and_eq_true]; exact h.2) c h1

end

/-! ## Shape lemmas for serialized values -/

theorem dumpsV_head (v : PyVal) (h : jsonOkV v = true) :
    ∃ c t, dumpsV v = c :: t ∧ dumpHeadOk c := by
  cases v with
  | pint neg ds =>
    simp only [jsonOkV, Bool.and_eq_true] at h
    obtain ⟨d0, t0, hds, hd0, _⟩ := canonDigits_shape ds h.1
    cases neg with
    | true => exact ⟨'-', ds, by simp [dumpsV], Or.inl rfl⟩
    | false =>
      refine ⟨d0, t0, ?_, Or.inr (Or.inr (Or.inr (Or.inr hd0)))⟩
      simp [dumpsV, hds]
  | pfloat neg ip fp =>
    simp only [jsonOkV, Bool.and_eq_true] at h
    obtain ⟨d0, t0, hds, hd0, _⟩ := canonDigits_shape ip h.1.1
    cases neg with
    | true => exact ⟨'-', ip ++ '.' :: fp, by simp [dumpsV], Or.inl rfl⟩
    | false =>
      refine ⟨d0, t0 ++ '.' :: fp, ?_, Or.inr (Or.inr (Or.inr (Or.inr hd0)))⟩
      simp [dumpsV, hds]
  | pstr s => exact ⟨'"', jsonEscape s.data ++ ['"'], by simp [dumpsV], Or.inr (Or.inl rfl)⟩
  | pbool b => simp [jsonOkV] at h
  | pnone => simp [jsonOkV] at h
  | plist xs =>
    exact ⟨'[', dumpsItems xs ++ [']'], by simp [dumpsV], Or.inr (Or.inr (Or.inl rfl))⟩
  | pdict es =>
    exact ⟨'\x7b', dumpsPairs es ++ ['\x7d'], by simp [dumpsV],
      Or.inr (Or.inr (Or.inr (Or.inl rfl)))⟩
  | pset xs => simp [jsonOkV] at h

theorem dumpHeadOk_not_ws (c : Char) (h : dumpHeadOk c) : pyWs c = false := by
  rcases h with rfl | rfl | rfl | rfl | h
  · decide
  · decide
  · decide
  · decide
  · obtain ⟨h1, h2⟩ := char_digit_bounds c h
    simp only [pyWs, Bool.or_eq_false_iff, decide_eq_false_iff_not]
    refine ⟨⟨⟨⟨⟨?_, ?_⟩, ?_⟩, ?_⟩, ?_⟩, ?_⟩ <;> (intro e; subst e; revert h1 h2; decide)

theorem dumpHeadOk_ne (c : Char) (h : dumpHeadOk c) (d : Char)
    (hd : d.toNat < 48 ∨ 57 < d.toNat) (hlit : ¬ ('-' = d ∨ '"' = d ∨ '[' = d ∨ '\x7b' = d)) :
    ¬ c = d := by
  rcases h with rfl | rfl | rfl | rfl | h
  · intro e; exact hlit (Or.inl e)
  · intro e; exact hlit (Or.inr (Or.inl e))
  · intro e; exact hlit (Or.inr (Or.inr (Or.inl e)))
  · intro e; exact hlit (Or.inr (Or.inr (Or.inr e)))
  · exact digit_ne c h d hd

theorem dumps_topStruct_shape (v : PyVal) (h : topStruct v = true) :
    ∃ c m e, dumpsV v = c :: (m ++ [e]) ∧ (c = '\x7b' ∨ c = '[') ∧ (e = '\x7d' ∨ e = ']') := by
  cases v with
  | plist xs =>
    exact ⟨'[', dumpsItems xs, ']', by simp [dumpsV], Or.inr rfl, Or.inr rfl⟩
  | pdict es =>
    exact ⟨'\x7b', dumpsPairs es, '\x7d', by simp [dumpsV], Or.inl rfl, Or.inl rfl⟩
  | pint neg ds => simp [topStruct] at h
  | pfloat neg ip fp => simp [topStruct] at h
  | pstr s => simp [topStruct] at h
  | pbool b => simp [topStruct] at h
  | pnone => simp [topStruct] at h
  | pset xs => simp [topStruct] at h

/-! ## No-op lemmas for the repair pipeline on clean serialized input -/

theorem nlRun_noop (l : List Char) (h : ∀ c ∈ l, ¬ c = '\n') : nlRun 0 l = l := by
  induction l with
  | nil => rfl
  | cons c cs ih =>
    have hc : ¬ c = '\n' := h c (by simp)
    rw [nlRun]
    simp only [hc, if_false]
    rw [ih (fun e he => h e (by simp [he]))]
    rfl

theorem pyStrip_shape (c : Char) (m : List Char) (e : Char)
    (hc : pyWs c = false) (he : pyWs e = false) :
    pyStrip (c :: (m ++ [e])) = c :: (m ++ [e]) := by
  unfold pyStrip
  rw [List.dropWhile_cons]
  simp only [hc, Bool.false_eq_true, if_false]
  rw [show (c :: (m ++ [e])).reverse = e :: (m.reverse ++ [c]) by simp]
  rw [List.dropWhile_cons]
  simp only [he, Bool.false_eq_true, if_false]
  simp

theorem replace2_noop (a b r : Char) :
    ∀ l, hasSub [a, b] l = false → replace2 a b r l = l
  | [], _ => rfl
  | [c], _ => rfl
  | x :: y :: t, h => by
    rw [hasSub_cons] at h
    simp only [Bool.or_eq_false_iff] at h
    have hpair : (x = a && y = b) = false := by
      cases hxa : decide (x = a) with
      | false => simp [decide_eq_false_iff_not.mp hxa]
      | true =>
        cases hyb : decide (y = b) with
        | false => simp [decide_eq_false_iff_not.mp hyb]
        | true =>
          exfalso
          have hx := of_decide_eq_true hxa
          have hy := of_decide_eq_true hyb
          subst hx; subst hy
          simp [chPre] at h
    rw [replace2]
    simp only [hpair, Bool.false_eq_true, if_false]
    rw [replace2_noop a b r (y :: t) h.2]

/-! ## Serialization decompositions -/

theorem dumpsItems_sep : ∀ (x : PyVal) (t : PyItems),
    dumpsItems (.cons x t) = dumpsV x ++ sepItems t
  | _, .nil => by rw [dumpsItems, sepItems, List.append_nil]
  | x, .cons y t => by
    rw [dumpsItems, sepItems, dumpsItems_sep y t]

theorem dumpsPairs_sep : ∀ (k v : PyVal) (t : PyPairs),
    dumpsPairs (.cons k v t) = dumpsV k ++ ':' :: ' ' :: (dumpsV v ++ sepPairs t)
  | _, _, .nil => by rw [dumpsPairs, sepPairs]; simp
  | k, v, .cons k2 v2 t => by
    rw [dumpsPairs, sepPairs, dumpsPairs_sep k2 v2 t]
    simp [List.append_assoc]

/-! ## Round trip of the literal parser over serialized values -/

theorem dropWhile_noWs (c : Char) (t : List Char) (h : pyWs c = false) :
    (c :: t).dropWhile pyWs = c :: t := by
  rw [List.dropWhile_cons]
  simp [h]

theorem strBody_escape : ∀ (l rest : List Char),
    strBody '"' (jsonEscape l ++ '"' :: rest) = some (l, rest) := by
  intro l
  induction l with
  | nil =>
    intro rest
    rw [jsonEscape, List.nil_append, strBody.eq_def]
    simp
  | cons c cs ih =>
    intro rest
    by_cases hq : c = '"'
    · subst hq
      simp [jsonEscape, strBody, escMap, ih]
    · by_cases hb : c = '\\'
      · subst hb
        simp [jsonEscape, strBody, escMap, ih]
      · rw [jsonEscape]
        simp only [hq, hb, if_false]
        rw [List.cons_append, strBody.eq_def]
        simp [hq, hb, ih]

theorem bOk_head (rest : List Char) (h : bOk rest = true) :
    rest = [] ∨ ∃ c t, rest = c :: t ∧ (c = ',' ∨ c = '\x7d' ∨ c = ']' ∨ c = ':') := by
  cases rest with
  | nil => exact Or.inl rfl
  | cons c t =>
    simp only [bOk, Bool.or_eq_true, decide_eq_true_eq] at h
    exact Or.inr ⟨c, t, rfl, by tauto⟩

theorem takeWhile_digit_append (ds rest : List Char)
    (hall : ∀ c ∈ ds, c.isDigit = true)
    (hrest : ∀ c t, rest = c :: t → c.isDigit = false) :
    (ds ++ rest).takeWhile Char.isDigit = ds ∧ (ds ++ rest).dropWhile Char.isDigit = rest := by
  induction ds with
  | nil =>
    cases rest with
    | nil => simp
    | cons c t => simp [List.takeWhile_cons, List.dropWhile_cons, hrest c t rfl]
  | cons d ds ih =>
    have hd := hall d (by simp)
    obtain ⟨ih1, ih2⟩ := ih (fun c hc => hall c (by simp [hc]))
    simp [List.takeWhile_cons, List.dropWhile_cons, hd, ih1, ih2]

theorem canon_noLeadZero (ds : List Char) (h : canonDigits ds = true) :
    leadZeroBad ds = false := by
  cases ds with
  | nil => rfl
  | cons d t =>
    cases t with
    | nil => rfl
    | cons e t2 =>
      simp only [canonDigits, Bool.and_eq_true, Bool.or_eq_true, decide_eq_true_eq] at h
      rcases h.2 with h2 | h2
      · simp at h2
      · simp only [List.headD_cons] at h2
        rw [leadZeroBad]
        simp [h2]

theorem bOk_notDigit (rest : List Char) (h : bOk rest = true) :
    ∀ c t, rest = c :: t → c.isDigit = false ∧ ¬ c = '.' := by
  intro c t he
  subst he
  rcases bOk_head _ h with h1 | ⟨c2, t2, he2, h2⟩
  · cases h1
  · injection he2 with he2a _
    subst he2a
    rcases h2 with rfl | rfl | rfl | rfl <;> exact ⟨by decide, by decide⟩

theorem parseNum_int (neg : Bool) (ds rest : List Char)
    (hcanon : canonDigits ds = true) (hrest : bOk rest = true) :
    parseNum neg (ds ++ rest) = some (.pint neg ds, rest) := by
  obtain ⟨d0, t0, hds, hd0, hall⟩ := canonDigits_shape ds hcanon
  obtain ⟨htw, hdw⟩ := takeWhile_digit_append ds rest hall
    (fun c t he => ((bOk_notDigit rest hrest) c t he).1)
  rw [parseNum]
  simp only [htw, hdw, canon_noLeadZero ds hcanon, Bool.false_eq_true, if_false]
  rcases bOk_head rest hrest with h1 | ⟨c, t, he, h2⟩
  · subst h1
    simp [hds]
  · subst he
    have hcdot : ¬ c = '.' := ((bOk_notDigit _ hrest) c t rfl).2
    have hne : ds.isEmpty = false := by simp [hds]
    rcases h2 with rfl | rfl | rfl | rfl <;> simp [hne]

theorem parseNum_float (neg : Bool) (ip fp rest : List Char)
    (hcanon : canonDigits ip = true) (hfp : ∀ c ∈ fp, c.isDigit = true)
    (hrest : bOk rest = true) :
    parseNum neg (ip ++ '.' :: (fp ++ rest)) = some (.pfloat neg ip fp, rest) := by
  obtain ⟨d0, t0, hds, hd0, hall⟩ := canonDigits_shape ip hcanon
  obtain ⟨htw, hdw⟩ := takeWhile_digit_append ip ('.' :: (fp ++ rest)) hall
    (fun c t he => by injection he with he1 _; subst he1; rfl)
  obtain ⟨htw2, hdw2⟩ := takeWhile_digit_append fp rest hfp
    (fun c t he => ((bOk_notDigit rest hrest) c t he).1)
  rw [parseNum]
  simp only [htw, hdw, canon_noLeadZero ip hcanon, Bool.false_eq_true, if_false, htw2, hdw2]
  have hne : ip.isEmpty = false := by simp [hds]
  simp [hne]

theorem parseVal_succ_digit (F : ℕ) (c : Char) (cs : List Char) (hd : c.isDigit = true) :
    parseVal (F + 1) (c :: cs) = parseNum false (c :: cs) := by
  have hws : pyWs c = false := dumpHeadOk_not_ws c (Or.inr (Or.inr (Or.inr (Or.inr hd))))
  have hT : chPre "True".data (c :: cs) = false :=
    chPre_head_ne 'T' c _ cs (fun e => digit_ne c hd 'T' (by decide) e.symm)
  have hF : chPre "False".data (c :: cs) = false :=
    chPre_head_ne 'F' c _ cs (fun e => digit_ne c hd 'F' (by decide) e.symm)
  have hN : chPre "None".data (c :: cs) = false :=
    chPre_head_ne 'N' c _ cs (fun e => digit_ne c hd 'N' (by decide) e.symm)
  have e1 := eq_false (show ¬ (c = '"' ∨ c = '\'') by
    rintro (e | e) <;> exact digit_ne c hd _ (by decide) e)
  have e2 := eq_false (digit_ne c hd '[' (by decide))
  have e3 := eq_false (digit_ne c hd '\x7b' (by decide))
  have e4 := eq_false (digit_ne c hd '-' (by decide))
  have e5 := eq_false (digit_ne c hd '+' (by decide))
  have e9 := eq_true (Or.inl hd : c.isDigit = true ∨ c = '.')
  rw [parseVal, dropWhile_noWs c cs hws]
  simp only [e1, e2, e3, e4, e5, hT, hF, hN, e9, Bool.false_eq_true, if_true, if_false]

theorem bOk_sepItems (t : PyItems) (rest : List Char) :
    bOk (sepItems t ++ ']' :: rest) = true := by
  cases t <;> simp [sepItems, bOk]

theorem bOk_sepPairs (t : PyPairs) (rest : List Char) :
    bOk (sepPairs t ++ '\x7d' :: rest) = true := by
  cases t <;> simp [sepPairs, bOk]

theorem dropWhile_dumps (v : PyVal) (hok : jsonOkV v = true) (X : List Char) :
    (dumpsV v ++ X).dropWhile pyWs = dumpsV v ++ X := by
  obtain ⟨c0, t0, hxd, hhead⟩ := dumpsV_head v hok
  rw [hxd, List.cons_append]
  exact dropWhile_noWs _ _ (dumpHeadOk_not_ws c0 hhead)

theorem dropWhile_space_dumps (v : PyVal) (hok : jsonOkV v = true) (X : List Char) :
    (' ' :: (dumpsV v ++ X)).dropWhile pyWs = dumpsV v ++ X := by
  rw [List.dropWhile_cons]
  simp only [show pyWs ' ' = true from rfl, if_true]
  exact dropWhile_dumps v hok X

theorem dropWhile_sep_items (t : PyItems) (rest : List Char) :
    (sepItems t ++ ']' :: rest).dropWhile pyWs = sepItems t ++ ']' :: rest := by
  cases t with
  | nil => rw [sepItems, List.nil_append]; exact dropWhile_noWs _ _ (by decide)
  | cons y t2 => rw [sepItems, List.cons_append]; exact dropWhile_noWs _ _ (by decide)

theorem dropWhile_sep_pairs (t : PyPairs) (rest : List Char) :
    (sepPairs t ++ '\x7d' :: rest).dropWhile pyWs = sepPairs t ++ '\x7d' :: rest := by
  cases t with
  | nil => rw [sepPairs, List.nil_append]; exact dropWhile_noWs _ _ (by decide)
  | cons k v t2 => rw [sepPairs, List.cons_append]; exact dropWhile_noWs _ _ (by decide)

/-! Step equations of the parser at each literal head character (all hold
by definitional unfolding). -/

theorem parseVal_succ_lbrack (F : ℕ) (cs : List Char) :
    parseVal (F + 1) ('[' :: cs) =
      (match cs.dropWhile pyWs with
       | ']' :: t => some (PyVal.plist .nil, t)
       | l2 =>
         match parseVal F l2 with
         | none => none
         | some (v, r) =>
           match parseSeqRest F ']' (r.dropWhile pyWs) with
           | none => none
           | some (xs, t) => some (PyVal.plist (.cons v xs), t)) := rfl

theorem parseVal_succ_lbrace (F : ℕ) (cs : List Char) :
    parseVal (F + 1) ('\x7b' :: cs) =
      (match cs.dropWhile pyWs with
       | '\x7d' :: t => some (PyVal.pdict .nil, t)
       | l2 =>
         match parseVal F l2 with
         | none => none
         | some (k, r) =>
           match r.dropWhile pyWs with
           | ':' :: r2 =>
             match parseVal F (r2.dropWhile pyWs) with
             | none => none
             | some (v, r3) =>
               match parsePairsRest F (r3.dropWhile pyWs) with
               | none => none
               | some (es, t) => some (PyVal.pdict (.cons k v es), t)
           | r1 =>
             match parseSeqRest F '\x7d' r1 with
             | none => none
             | some (xs, t) => some (PyVal.pset (.cons k xs), t)) := rfl

theorem parseVal_succ_minus (F : ℕ) (cs : List Char) :
    parseVal (F + 1) ('-' :: cs) = parseNum true cs := rfl

theorem parseVal_succ_quote (F : ℕ) (cs : List Char) :
    parseVal (F + 1) ('"' :: cs) =
      (strBody '"' cs).map (fun p => (PyVal.pstr (String.mk p.1), p.2)) := rfl

theorem parseSeqRest_succ_close (F : ℕ) (cs : List Char) :
    parseSeqRest (F + 1) ']' (']' :: cs) = some (.nil, cs) := rfl

theorem parseSeqRest_succ_comma (F : ℕ) (cs : List Char) :
    parseSeqRest (F + 1) ']' (',' :: cs) =
      (match cs.dropWhile pyWs with
       | [] => none
       | d :: t =>
         if d = ']' then some (.nil, t)
         else
           match parseVal F (d :: t) with
           | none => none
           | some (v, r) =>
             match parseSeqRest F ']' (r.dropWhile pyWs) with
             | none => none
             | some (xs, t2) => some (PyItems.cons v xs, t2)) := rfl

theorem parsePairsRest_succ_close (F : ℕ) (cs : List Char) :
    parsePairsRest (F + 1) ('\x7d' :: cs) = some (.nil, cs) := rfl

theorem parsePairsRest_succ_comma (F : ℕ) (cs : List Char) :
    parsePairsRest (F + 1) (',' :: cs) =
      (match cs.dropWhile pyWs with
       | [] => none
       | d :: t =>
         if d = '\x7d' then some (.nil, t)
         else
           match parseVal F (d :: t) with
           | none => none
           | some (k, r) =>
             match r.dropWhile pyWs with
             | ':' :: r2 =>
               match parseVal F (r2.dropWhile pyWs) with
               | none => none
               | some (v, r3) =>
                 match parsePairsRest F (r3.dropWhile pyWs) with
                 | none => none
                 | some (es, t2) => some (PyPairs.cons k v es, t2)
             | _ => none) := rfl

/-- The central round-trip property: at sufficient fuel the literal parser
consumes the serialization of any JSON-ok value exactly, returning the
value and the untouched continuation (`bOk` describes the contexts in
which a serialized value can occur inside a dump). -/
theorem rt_parse : ∀ (F : ℕ),
    (∀ (v : PyVal) (rest : List Char), jsonOkV v = true →
      (dumpsV v).length + rest.length < F → bOk rest = true →
      parseVal F (dumpsV v ++ rest) = some (v, rest))
    ∧ (∀ (xs : PyItems) (rest : List Char), jsonOkItems xs = true →
      (sepItems xs).length + rest.length + 1 < F → bOk rest = true →
      parseSeqRest F ']' (sepItems xs ++ ']' :: rest) = some (xs, rest))
    ∧ (∀ (es : PyPairs) (rest : List Char), jsonOkPairs es = true →
      (sepPairs es).length + rest.length + 1 < F → bOk rest = true →
      parsePairsRest F (sepPairs es ++ '\x7d' :: rest) = some (es, rest)) := by
  intro F
  induction F with
  | zero =>
    exact ⟨fun v rest _ hlen _ => absurd hlen (by omega),
           fun xs rest _ hlen _ => absurd hlen (by omega),
           fun es rest _ hlen _ => absurd hlen (by omega)⟩
  | succ F ih =>
    obtain ⟨ihV, ihS, ihP⟩ := ih
    refine ⟨?_, ?_, ?_⟩
    · intro v rest hok hlen hrest
      cases v with
      | pint neg ds =>
        simp only [jsonOkV, Bool.and_eq_true] at hok
        obtain ⟨d0, t0, hds, hd0, hall⟩ := canonDigits_shape ds hok.1
        cases neg with
        | false =>
          have hsh : dumpsV (PyVal.pint false ds) ++ rest = d0 :: (t0 ++ rest) := by
            rw [dumpsV]
            simp [hds]
          rw [hsh, parseVal_succ_digit F d0 (t0 ++ rest) hd0]
          rw [show d0 :: (t0 ++ rest) = ds ++ rest by simp [hds]]
          exact parseNum_int false ds rest hok.1 hrest
        | true =>
          have hsh : dumpsV (PyVal.pint true ds) ++ rest = '-' :: (ds ++ rest) := by
            rw [dumpsV]
            simp
          rw [hsh, parseVal_succ_minus]
          exact parseNum_int true ds rest hok.1 hrest
      | pfloat neg ip fp =>
        simp only [jsonOkV, Bool.and_eq_true] at hok
        obtain ⟨d0, t0, hds, hd0, hall⟩ := canonDigits_shape ip hok.1.1
        have hfp : ∀ c ∈ fp, c.isDigit = true := List.all_eq_true.mp hok.2
        cases neg with
        | false =>
          have hsh : dumpsV (PyVal.pfloat false ip fp) ++ rest
              = d0 :: (t0 ++ '.' :: (fp ++ rest)) := by
            rw [dumpsV]
            simp [hds]
          rw [hsh, parseVal_succ_digit F d0 _ hd0]
          rw [show d0 :: (t0 ++ '.' :: (fp ++ rest)) = ip ++ '.' :: (fp ++ rest) by simp [hds]]
          exact parseNum_float false ip fp rest hok.1.1 hfp hrest
        | true =>
          have hsh : dumpsV (PyVal.pfloat true ip fp) ++ rest
              = '-' :: (ip ++ '.' :: (fp ++ rest)) := by
            rw [dumpsV]
            simp
          rw [hsh, parseVal_succ_minus]
          exact parseNum_float true ip fp rest hok.1.1 hfp hrest
      | pstr s =>
        have hsh : dumpsV (PyVal.pstr s) ++ rest
            = '"' :: (jsonEscape s.data ++ '"' :: rest) := by
          rw [dumpsV]
          simp
        rw [hsh, parseVal_succ_quote, strBody_escape]
        rfl
      | pbool b => simp [jsonOkV] at hok
      | pnone => simp [jsonOkV] at hok
      | pset xs => simp [jsonOkV] at hok
      | plist xs =>
        cases xs with
        | nil =>
          have hsh : dumpsV (PyVal.plist .nil) ++ rest = '[' :: (']' :: rest) := by
            rw [dumpsV, dumpsItems]
            simp
          rw [hsh]
          rfl
        | cons x t =>
          simp only [jsonOkV, jsonOkItems, Bool.and_eq_true] at hok
          have hsh : dumpsV (PyVal.plist (.cons x t)) ++ rest
              = '[' :: (dumpsV x ++ (sepItems t ++ ']' :: rest)) := by
            rw [dumpsV, dumpsItems_sep]
            simp [List.append_assoc]
          have hlen2 : (dumpsV x).length + (sepItems t ++ ']' :: rest).length < F := by
            rw [dumpsV, dumpsItems_sep] at hlen
            simp only [List.length_append, List.length_cons] at hlen ⊢
            omega
          have hlen3 : (sepItems t).length + rest.length + 1 < F := by
            have h1 : 1 ≤ (dumpsV x).length := by
              obtain ⟨c0, t0, hxd, _⟩ := dumpsV_head x hok.1
              rw [hxd]
              simp
            simp only [List.length_append, List.length_cons] at hlen2
            omega
          rw [hsh, parseVal_succ_lbrack, dropWhile_dumps x hok.1]
          obtain ⟨c0, t0, hxd, hhead⟩ := dumpsV_head x hok.1
          rw [hxd, List.cons_append]
          split
          · rename_i heq
            rw [List.cons.injEq] at heq
            exact absurd heq.1 (dumpHeadOk_ne c0 hhead ']' (by decide) (by decide))
          · rw [← List.cons_append, ← hxd,
              ihV x (sepItems t ++ ']' :: rest) hok.1 hlen2 (bOk_sepItems t rest)]
            simp only [dropWhile_sep_items, ihS t rest hok.2 hlen3 hrest]
      | pdict es =>
        cases es with
        | nil =>
          have hsh : dumpsV (PyVal.pdict .nil) ++ rest = '\x7b' :: ('\x7d' :: rest) := by
            rw [dumpsV, dumpsPairs]
            simp
          rw [hsh]
          rfl
        | cons k v t =>
          simp only [jsonOkV, jsonOkPairs, Bool.and_eq_true] at hok
          have hkOk : jsonOkV k = true := by
            obtain ⟨⟨hm, _⟩, _⟩ := hok
            cases k <;> simp_all [jsonOkV]
          have hsh : dumpsV (PyVal.pdict (.cons k v t)) ++ rest
              = '\x7b' :: (dumpsV k
                ++ (':' :: ' ' :: (dumpsV v ++ (sepPairs t ++ '\x7d' :: rest)))) := by
            rw [dumpsV, dumpsPairs_sep]
            simp [List.append_assoc]
          have hlenk : (dumpsV k).length
              + (':' :: ' ' :: (dumpsV v ++ (sepPairs t ++ '\x7d' :: rest))).length < F := by
            rw [dumpsV, dumpsPairs_sep] at hlen
            simp only [List.length_append, List.length_cons] at hlen ⊢
            omega
          have hlenv : (dumpsV v).length + (sepPairs t ++ '\x7d' :: rest).length < F := by
            have h1 : 1 ≤ (dumpsV k).length := by
              obtain ⟨c0, t0, hxd, _⟩ := dumpsV_head k hkOk
              rw [hxd]
              simp
            simp only [List.length_append, List.length_cons] at hlenk ⊢
            omega
          have hlent : (sepPairs t).length + rest.length + 1 < F := by
            have h1 : 1 ≤ (dumpsV v).length := by
              obtain ⟨c0, t0, hxd, _⟩ := dumpsV_head v hok.1.2
              rw [hxd]
              simp
            simp only [List.length_append, List.length_cons] at hlenv
            omega
          rw [hsh, parseVal_succ_lbrace, dropWhile_dumps k hkOk]
          obtain ⟨c0, t0, hxd, hhead⟩ := dumpsV_head k hkOk
          rw [hxd, List.cons_append]
          split
          · rename_i heq
            rw [List.cons.injEq] at heq
            exact absurd heq.1 (dumpHeadOk_ne c0 hhead '\x7d' (by decide) (by decide))
          · rw [← List.cons_append, ← hxd,
              ihV k (':' :: ' ' :: (dumpsV v ++ (sepPairs t ++ '\x7d' :: rest))) hkOk hlenk
                (by rw [bOk]; simp)]
            simp only [dropWhile_noWs ':' _ (by decide), dropWhile_space_dumps v hok.1.2,
              ihV v (sepPairs t ++ '\x7d' :: rest) hok.1.2 hlenv (bOk_sepPairs t rest),
              dropWhile_sep_pairs, ihP t rest hok.2 hlent hrest]
    · intro xs rest hok hlen hrest
      cases xs with
      | nil =>
        rw [show sepItems .nil ++ ']' :: rest = ']' :: rest by rw [sepItems, List.nil_append]]
        rw [parseSeqRest_succ_close]
      | cons x t =>
        simp only [jsonOkItems, Bool.and_eq_true] at hok
        have hsh : sepItems (.cons x t) ++ ']' :: rest
            = ',' :: (' ' :: (dumpsV x ++ (sepItems t ++ ']' :: rest))) := by
          rw [sepItems]
          simp [List.append_assoc]
        have hlen2 : (dumpsV x).length + (sepItems t ++ ']' :: rest).length < F := by
          rw [sepItems] at hlen
          simp only [List.length_append, List.length_cons] at hlen ⊢
          omega
        have hlen3 : (sepItems t).length + rest.length + 1 < F := by
          have h1 : 1 ≤ (dumpsV x).length := by
            obtain ⟨c0, t0, hxd, _⟩ := dumpsV_head x hok.1
            rw [hxd]
            simp
          simp only [List.length_append, List.length_cons] at hlen2
          omega
        rw [hsh, parseSeqRest_succ_comma, dropWhile_space_dumps x hok.1]
        obtain ⟨c0, t0, hxd, hhead⟩ := dumpsV_head x hok.1
        have hnc : (c0 = ']') = False :=
          eq_false (dumpHeadOk_ne c0 hhead ']' (by decide) (by decide))
        rw [hxd, List.cons_append]
        simp only [hnc, if_false]
        rw [← List.cons_append, ← hxd,
          ihV x (sepItems t ++ ']' :: rest) hok.1 hlen2 (bOk_sepItems t rest)]
        simp only [dropWhile_sep_items, ihS t rest hok.2 hlen3 hrest]
    · intro es rest hok hlen hrest
      cases es with
      | nil =>
        rw [show sepPairs .nil ++ '\x7d' :: rest = '\x7d' :: rest by
          rw [sepPairs, List.nil_append]]
        rw [parsePairsRest_succ_close]
      | cons k v t =>
        simp only [jsonOkPairs, Bool.and_eq_true] at hok
        have hkOk : jsonOkV k = true := by
          obtain ⟨⟨hm, _⟩, _⟩ := hok
          cases k <;> simp_all [jsonOkV]
        have hsh : sepPairs (.cons k v t) ++ '\x7d' :: rest
            = ',' :: (' ' :: (dumpsV k
              ++ (':' :: ' ' :: (dumpsV v ++ (sepPairs t ++ '\x7d' :: rest))))) := by
          rw [sepPairs]
          simp [List.append_assoc]
        have hlenk : (dumpsV k).length
            + (':' :: ' ' :: (dumpsV v ++ (sepPairs t ++ '\x7d' :: rest))).length < F := by
          rw [sepPairs] at hlen
          simp only [List.length_append, List.length_cons] at hlen ⊢
          omega
        have hlenv : (dumpsV v).length + (sepPairs t ++ '\x7d' :: rest).length < F := by
          have h1 : 1 ≤ (dumpsV k).length := by
            obtain ⟨c0, t0, hxd, _⟩ := dumpsV_head k hkOk
            rw [hxd]
            simp
          simp only [List.length_append, List.length_cons] at hlenk ⊢
          omega
        have hlent : (sepPairs t).length + rest.length + 1 < F := by
          have h1 : 1 ≤ (dumpsV v).length := by
            obtain ⟨c0, t0, hxd, _⟩ := dumpsV_head v hok.1.2
            rw [hxd]
            simp
          simp only [List.length_append, List.length_cons] at hlenv
          omega
        rw [hsh, parsePairsRest_succ_comma, dropWhile_space_dumps k hkOk]
        obtain ⟨c0, t0, hxd, hhead⟩ := dumpsV_head k hkOk
        have hnc : (c0 = '\x7d') = False :=
          eq_false (dumpHeadOk_ne c0 hhead '\x7d' (by decide) (by decide))
        rw [hxd, List.cons_append]
        simp only [hnc, if_false]
        rw [← List.cons_append, ← hxd,
          ihV k (':' :: ' ' :: (dumpsV v ++ (sepPairs t ++ '\x7d' :: rest))) hkOk hlenk
            (by rw [bOk]; simp)]
        simp only [dropWhile_noWs ':' _ (by decide), dropWhile_space_dumps v hok.1.2,
          ihV v (sepPairs t ++ '\x7d' :: rest) hok.1.2 hlenv (bOk_sepPairs t rest),
          dropWhile_sep_pairs, ihP t rest hok.2 hlent hrest]

end InsClaims

namespace InsClaims

/-! ## Claim theorems -/

/-- C1.  Response parsing never raises to the caller: for every raw model
response, a parse failure degrades to the empty attribute mapping at the
handler's `try`/`except` (lines 164-169 of `extract_attributes.py`); in
particular the blank-line key/value input `"customer_name: Alice\n\nscore:
0.5"` yields the empty mapping rather than an exception (inside
`parse_json_string` itself the repaired candidate still fails
`ast.literal_eval`, and the handler converts that failure to `{}`). -/
theorem claim_C1 :
    (∀ s m, parse_json_string s = Except.error m → handlerParseResponse s = pyEmptyDict)
      ∧ handlerParseResponse "customer_name: Alice\n\nscore: 0.5" = pyEmptyDict := by
  constructor
  · intro s m h
    unfold handlerParseResponse
    rw [h]
  · rfl

/-- Witness for C1 at the spec's parser-tolerance input. -/
theorem claim_C1_witness :
    handlerParseResponse "customer_name: Alice\n\nscore: 0.5" = pyEmptyDict :=
  claim_C1.1 "customer_name: Alice\n\nscore: 0.5" "malformed node or string" rfl

/-- C2 counterexample.  The budget already fits (`1 ≤ 8000`), yet
`truncate_document` is not the identity: with a zero cut width it still
rejoins the two halves around the literal `"\n...\n"` marker. -/
theorem claim_C2_counterexample :
    (1 : ℤ) ≤ 8000
      ∧ truncate_document (fun _ => 0) "a b" 1 0 8000 = "a\n...\nb"
      ∧ truncate_document (fun _ => 0) "a b" 1 0 8000 ≠ "a b" := by
  refine ⟨by decide, by decide, by decide⟩

/-- C2 amended.  When `total_token_estimate ≤ max_context_tokens` the cut
width is zero, so no words are removed, but the result is the document's
two word-halves rejoined with the `"\n...\n"` marker inserted at the word
midpoint — not the unchanged input. -/
theorem claim_C2_amended (tokenCount : String → ℤ) (document : String)
    (token_count_total num_token_prompt max_token_model : ℤ)
    (h : token_count_total ≤ max_token_model) :
    truncate_document tokenCount document token_count_total num_token_prompt max_token_model =
      String.mk
        (joinSp ((splitSp document.data).take ((splitSp document.data).length / 2))
          ++ "\n...\n".data
          ++ joinSp ((splitSp document.data).drop ((splitSp document.data).length / 2))) := by
  unfold truncate_document
  have hlt : ¬ max_token_model < token_count_total := not_lt.mpr h
  simp only [hlt, if_false]
  congr 1
  apply truncLoop_const
  · intro m
    have hz : (0 : ℤ) * m / 10 = 0 := by norm_num
    simp only [hz, sub_zero, add_zero, pySliceTo_natCast, pySliceFrom_natCast]
  · decide

/-- Witness for C2 amended at a concrete in-budget document. -/
theorem claim_C2_amended_witness :
    (1 : ℤ) ≤ 8000
      ∧ truncate_document (fun _ => 0) "a b" 1 0 8000 =
        String.mk
          (joinSp ((splitSp "a b".data).take ((splitSp "a b".data).length / 2))
            ++ "\n...\n".data
            ++ joinSp ((splitSp "a b".data).drop ((splitSp "a b".data).length / 2))) :=
  ⟨by decide, claim_C2_amended (fun _ => 0) "a b" 1 0 8000 (by decide)⟩

/-- C3 counterexample.  The round trip fails for a value whose
serialization ends in doubled closing braces: for the nested dict
`\x7b"a": \x7b"b": 1\x7d\x7d` (with empty surrounding prose) the
doubled-brace collapse rewrites the tail `\x7d\x7d` to `\x7d`, and the
mutilated literal is rejected by `ast.literal_eval`; the claim instead
promises recovery of the value, explicitly including serializations
ending in doubled or nested closing braces. -/
theorem claim_C3_counterexample :
    parse_json_string ("" ++ "<json>"
        ++ dumpsStr (PyVal.pdict (.cons (.pstr "a")
            (PyVal.pdict (.cons (.pstr "b") (.pint false ['1']) .nil)) .nil))
        ++ "</json>" ++ "")
      = Except.error "malformed node or string" := rfl

/-- C3 amended.  The round trip does hold on the brace-collapse-safe
fragment: for every JSON-ok value `v` (ASCII strings, no booleans or
null, canonical numbers) that is a top-level dict or list, whose
serialization contains no doubled `\x7d\x7d` or `\x7b\x7b` pair, with
surrounding prose that does not straddle or duplicate the delimiters,
parsing `p1 ++ "<json>" ++ dumps v ++ "</json>" ++ p2` recovers `v`. -/
theorem claim_C3_amended (v : PyVal) (p1 p2 : String)
    (hok : jsonOkV v = true) (hts : topStruct v = true)
    (hp1 : hasSub "<json>".data (p1.data ++ "<json>".data.dropLast) = false)
    (hp2 : hasSub "</json>".data ("</json>".data.drop 1 ++ p2.data) = false)
    (hcb : hasSub ['\x7d', '\x7d'] (dumpsV v) = false)
    (hob : hasSub ['\x7b', '\x7b'] (dumpsV v) = false) :
    parse_json_string (p1 ++ "<json>" ++ dumpsStr v ++ "</json>" ++ p2)
      = Except.ok v := by
  obtain ⟨c, m, e, hdv, hc, he⟩ := dumps_topStruct_shape v hts
  have hdata : (p1 ++ "<json>" ++ dumpsStr v ++ "</json>" ++ p2).data
      = p1.data ++ ("<json>".data ++ (dumpsV v ++ "</json>".data ++ p2.data)) := by
    simp [dumpsStr, List.append_assoc]
  have hsp : splitFirst "<json>".data
      (p1 ++ "<json>" ++ dumpsStr v ++ "</json>" ++ p2).data
      = some (p1.data, dumpsV v ++ "</json>".data ++ p2.data) := by
    rw [hdata]
    exact splitFirst_exact "<json>".data (by decide) p1.data _ hp1
  have hrs : rsplitLastBefore "</json>".data (dumpsV v ++ "</json>".data ++ p2.data)
      = dumpsV v :=
    rsplitLastBefore_exact "</json>".data (by decide) (dumpsV v) p2.data hp2
  have hstrip : pyStrip (dumpsV v) = dumpsV v := by
    rw [hdv]
    exact pyStrip_shape c m e
      (by rcases hc with h | h <;> subst h <;> decide)
      (by rcases he with h | h <;> subst h <;> decide)
  have hnl : collapseNL (dumpsV v) = dumpsV v := by
    rw [collapseNL]
    refine nlRun_noop _ (fun ch hch hn => ?_)
    have := dumpsV_print v hok ch hch
    subst hn
    exact absurd this (by decide)
  have hhead : (dumpsV v).headD ' ' = '\x7b' ∨ (dumpsV v).headD ' ' = '[' := by
    rw [hdv]
    simpa using hc
  have hlast : (dumpsV v).getLastD ' ' = '\x7d' ∨ (dumpsV v).getLastD ' ' = ']' := by
    rw [hdv, show c :: (m ++ [e]) = (c :: m) ++ [e] from rfl, List.getLastD_concat]
    exact he
  have hr1 : replace2 '\x7d' '\x7d' '\x7d' (dumpsV v) = dumpsV v :=
    replace2_noop _ _ _ _ hcb
  have hr2 : replace2 '\x7b' '\x7b' '\x7b' (dumpsV v) = dumpsV v :=
    replace2_noop _ _ _ _ hob
  have hparse : parseVal ((String.mk (dumpsV v)).length + 8) (dumpsV v)
      = some (v, []) := by
    have h := (rt_parse ((dumpsV v).length + 8)).1 v [] hok (by simp) rfl
    rw [List.append_nil] at h
    exact h
  have hfin : pyLiteralEval (String.mk (dumpsV v)) = Except.ok v := by
    unfold pyLiteralEval
    rw [show (String.mk (dumpsV v)).data = dumpsV v from rfl, hparse]
    rfl
  unfold parse_json_string
  simp only [hsp, hrs, hstrip, hnl]
  rw [if_pos hhead, if_pos hlast, hr1, hr2]
  exact hfin

/-- Witness for C3 amended: an order-id dict wrapped in thinking prose,
mirroring the round-trip example of the spec. -/
theorem claim_C3_amended_witness :
    parse_json_string ("<thinking>considering the request</thinking> "
        ++ "<json>"
        ++ dumpsStr (PyVal.pdict (.cons (.pstr "order_id") (.pstr "754263") .nil))
        ++ "</json>" ++ "")
      = Except.ok (PyVal.pdict (.cons (.pstr "order_id") (.pstr "754263") .nil)) :=
  claim_C3_amended
    (PyVal.pdict (.cons (.pstr "order_id") (.pstr "754263") .nil))
    "<thinking>considering the request</thinking> " ""
    (by decide) (by decide) (by decide) (by decide) (by decide) (by decide)

/-- C4.  The numbered attribute rendering built from the request (lines
123-128) is discarded: line 149 overwrites `attributes_str` with a
hardcoded demo string, so the value supplied for the `{attributes}`
placeholder is not the request's schema. -/
theorem claim_C4 :
    buildAttributesStr [⟨"order_id", "the order number", none⟩]
        = "1. order_id: the order number\n"
      ∧ handlerAttributesString [⟨"order_id", "the order number", none⟩]
        = "claimer name, car model, accident description"
      ∧ handlerAttributesString [⟨"order_id", "the order number", none⟩]
        ≠ buildAttributesStr [⟨"order_id", "the order number", none⟩] := by
  refine ⟨by decide, rfl, by decide⟩

/-- C5.  The module-level `GENERATOR_CONFIG` dict is mutated per request:
after serving a `meta` request (which sets `max_tokens := 2048`), a
subsequent `anthropic` request is adapted with `max_tokens = 2048` instead
of the default `4096` it gets when processed alone — the adapted
parameters for B depend on whether A ran first. -/
theorem claim_C5 :
    ((handlerModelParamsStep generatorConfigInit "anthropic.claude-v2" 0).2.lookup "max_tokens"
        = some (BVal.num 4096))
      ∧ ((handlerModelParamsStep
            (handlerModelParamsStep generatorConfigInit "meta.llama3-8b-instruct-v1:0" 1).1
            "anthropic.claude-v2" 0).2.lookup "max_tokens" = some (BVal.num 2048))
      ∧ (handlerModelParamsStep generatorConfigInit "anthropic.claude-v2" 0).2
        ≠ (handlerModelParamsStep
            (handlerModelParamsStep generatorConfigInit "meta.llama3-8b-instruct-v1:0" 1).1
            "anthropic.claude-v2" 0).2 := by
  refine ⟨by decide, by decide, by decide⟩

/-- C6 counterexample.  `anthropic.claude-3-opus-20240229-v1:0` has a
max-context entry but no `ModelSpecificParams` mapping (its construction
raises `KeyError`, not an `UnsupportedModelError`, and its vendor prefix
*is* mapped); and `get_model_params` on an unmapped vendor prefix returns
an empty dict instead of failing. -/
theorem claim_C6_counterexample :
    (maxDocLengthDic.lookup "anthropic.claude-3-opus-20240229-v1:0").isSome = true
      ∧ modelSpecificMaps.lookup "anthropic.claude-3-opus-20240229-v1:0" = none
      ∧ modelSpecificParamsInit "anthropic.claude-3-opus-20240229-v1:0"
        = .error "KeyError: anthropic.claude-3-opus-20240229-v1:0"
      ∧ vendorDispatch "anthropic.claude-3-opus-20240229-v1:0" = "anthropic"
      ∧ get_model_params "foovendor.model-v1" defaultCfg0 = [] := by
  refine ⟨by decide, by decide, rfl, by decide, rfl⟩

/-- C6 amended.  No `UnsupportedModelError` exists: `get_model_params`
returns an empty mapping exactly for ids whose prefix matches no vendor
branch (silently recoverable); `ModelSpecificParams.__init__` fails
(`KeyError`) exactly for full ids absent from `__maps__`; every identity
in the max-context table has a `get_model_params` vendor mapping, but
`anthropic.claude-3-opus-20240229-v1:0` (among others) has none in
`__maps__`. -/
theorem claim_C6_amended :
    (∀ model_id cfg, vendorDispatch model_id = "" → get_model_params model_id cfg = [])
      ∧ (∀ model_id cfg, vendorDispatch model_id ≠ "" → get_model_params model_id cfg ≠ [])
      ∧ (∀ model_id, (∃ e, modelSpecificParamsInit model_id = .error e)
          ↔ modelSpecificMaps.lookup model_id = none)
      ∧ (∀ kv ∈ maxDocLengthDic, vendorDispatch kv.1 ≠ "")
      ∧ (maxDocLengthDic.lookup "anthropic.claude-3-opus-20240229-v1:0").isSome = true
      ∧ modelSpecificMaps.lookup "anthropic.claude-3-opus-20240229-v1:0" = none := by
  refine ⟨?_, ?_, ?_, by decide, by decide, rfl⟩
  · intro model_id cfg h
    unfold get_model_params
    unfold vendorDispatch at h
    repeat' split at h
    all_goals simp_all
  · intro model_id cfg h
    unfold get_model_params
    unfold vendorDispatch at h
    repeat' split at h
    all_goals simp_all
  · intro model_id
    unfold modelSpecificParamsInit
    cases h : modelSpecificMaps.lookup model_id <;> simp

/-- Witness for C6 amended: an unknown vendor prefix yields the empty
parameter mapping without an error. -/
theorem claim_C6_amended_witness :
    get_model_params "foovendor.model-v1" defaultCfg0 = [] :=
  claim_C6_amended.1 "foovendor.model-v1" defaultCfg0 (by decide)

/-- C7.  `input_variables += "instructions"` extends the declared
placeholder list with the twelve single-character strings of
`"instructions"`, not with the name `"instructions"`; the claimed set is
declared only in the blank-instructions case (shown for two few-shots). -/
theorem claim_C7 :
    (load_prompt_template 0 "x").2
        = ["document", "attributes",
           "i", "n", "s", "t", "r", "u", "c", "t", "i", "o", "n", "s"]
      ∧ (load_prompt_template 0 "x").2 ≠ ["document", "attributes", "instructions"]
      ∧ (load_prompt_template 2 "").2
        = ["document", "attributes", "few_shot_input_0", "few_shot_output_0",
           "few_shot_input_1", "few_shot_output_1"] := by
  refine ⟨by decide, by decide, by decide⟩

/-- C8.  The merge test of `compile_tables` is exactly the spec's rule
(title matches the last title or is the auto-placeholder, and the column
signature matches — identical columns, or default positional columns at
the same cardinality), and the three-fragment scenario yields exactly two
logical tables, the first holding both `Damages` fragments' rows in
order. -/
theorem claim_C8 :
    (∀ lastTitle lastCols i newTitle cols,
        mergesWithLast lastTitle lastCols i newTitle cols = true
          ↔ specMergeCond lastTitle lastCols i newTitle cols)
      ∧ compile_tables
          [⟨some ["Damages"], "", "", [.named "A", .named "B"], [["a1", "b1"]]⟩,
           ⟨some ["Damages"], "", "", [.named "A", .named "B"], [["a2", "b2"]]⟩,
           ⟨some ["Costs"], "", "", [.named "X", .named "Y"], [["x1", "y1"]]⟩]
        = some [("Damages", ⟨[.named "A", .named "B"], [["a1", "b1"], ["a2", "b2"]]⟩),
                ("Costs", ⟨[.named "X", .named "Y"], [["x1", "y1"]]⟩)] := by
  constructor
  · intro lastTitle lastCols i newTitle cols
    unfold mergesWithLast specMergeCond
    constructor
    · intro h
      simp only [Bool.and_eq_true, Bool.or_eq_true, decide_eq_true_eq] at h
      obtain ⟨⟨ht, hlen⟩, hcols⟩ := h
      refine ⟨ht, ?_⟩
      rcases hcols with h1 | h2
      · exact Or.inl h1
      · exact Or.inr ⟨h2, hlen⟩
    · intro h
      obtain ⟨ht, hcols⟩ := h
      simp only [Bool.and_eq_true, Bool.or_eq_true, decide_eq_true_eq]
      rcases hcols with h1 | ⟨h2, hlen⟩
      · exact ⟨⟨ht, by rw [h1]⟩, Or.inl h1⟩
      · exact ⟨⟨ht, hlen⟩, Or.inr h2⟩
  · decide

/-- C9.  For a (pdf) page sequence, the packaged user message is the first
`min(n, max_pages)` pages base64-encoded as image blocks in order,
followed by the prompt text as the single final block; an empty page
sequence after truncation fails (the `ValueError` the spec's taxonomy
names `NoPagesFoundError`) and no message is produced. -/
theorem claim_C9 (rasterizePdf : String → List (List ℕ)) (readFileBytes : String → List ℕ)
    (text f : String) (max_pages : ℕ)
    (hne : f ≠ "") (hpdf : pyEndsWith ".pdf" (lowerStr f) = true) :
    ((rasterizePdf f).take max_pages = [] →
        create_human_message_with_imgs rasterizePdf readFileBytes text (some f) max_pages
          = .error noPagesFoundMsg)
      ∧ ((rasterizePdf f).take max_pages ≠ [] →
        create_human_message_with_imgs rasterizePdf readFileBytes text (some f) max_pages
          = .ok ⟨"user",
              ((rasterizePdf f).take max_pages).map
                  (fun p => ContentBlock.image "image/jpeg" (base64Encode p))
                ++ [ContentBlock.text text]⟩) := by
  unfold create_human_message_with_imgs
  have key : ((rasterizePdf f).map base64Encode).take max_pages
      = ((rasterizePdf f).take max_pages).map base64Encode := by
    simp [List.map_take]
  simp only [if_neg hne, hpdf, eq_self_iff_true, if_true, key]
  constructor
  · intro h
    simp only [h, List.map_nil, List.isEmpty_nil, if_true]
    rfl
  · intro h
    have h2 : (((rasterizePdf f).take max_pages).map base64Encode).isEmpty = false := by
      rw [Bool.eq_false_iff]
      intro hE
      rw [List.isEmpty_iff] at hE
      exact h (List.map_eq_nil_iff.mp hE)
    simp only [h2, Bool.false_eq_true, if_false, List.map_map]
    rfl

/-- Witness for C9: a one-page pdf packages into one image block and the
final text block. -/
theorem claim_C9_witness :
    create_human_message_with_imgs (fun _ => [[0]]) (fun _ => []) "p" (some "a.pdf") 1
      = .ok ⟨"user", [ContentBlock.image "image/jpeg" (base64Encode [0]),
                      ContentBlock.text "p"]⟩ := by
  have h := (claim_C9 (fun _ => [[0]]) (fun _ => []) "p" "a.pdf" 1 (by decide) (by decide)).2
    (by decide)
  simpa using h

/-- C10.  For every model id, the adapted parameter dict's key list is
exactly the dispatched vendor's declared target keys (empty for unknown
vendors); the anthropic targets are exactly
`max_tokens, stop_sequences, temperature, top_p, top_k`; and
`ModelSpecificParams.to_dict` projects each mapping onto exactly its
declared target names, for every parameter value. -/
theorem claim_C10 :
    (∀ model_id cfg,
        (get_model_params model_id cfg).map Prod.fst = vendorTargetKeys (vendorDispatch model_id))
      ∧ vendorTargetKeys "anthropic"
        = ["max_tokens", "stop_sequences", "temperature", "top_p", "top_k"]
      ∧ (∀ p, (msToDict p titanMapping).map Prod.fst = titanMapping.map Prod.snd)
      ∧ (∀ p, (msToDict p anthropicMapping).map Prod.fst = anthropicMapping.map Prod.snd)
      ∧ (∀ p, (msToDict p mistralMapping).map Prod.fst = mistralMapping.map Prod.snd)
      ∧ (∀ p, (msToDict p cohereMapping).map Prod.fst = cohereMapping.map Prod.snd)
      ∧ (∀ p, (msToDict p metaMapping).map Prod.fst = metaMapping.map Prod.snd)
      ∧ (∀ p, (msToDict p ai21Mapping).map Prod.fst = ai21Mapping.map Prod.snd) := by
  refine ⟨?_, rfl, fun p => rfl, fun p => rfl, fun p => rfl, fun p => rfl, fun p => rfl,
    fun p => rfl⟩
  intro model_id cfg
  unfold get_model_params vendorDispatch
  repeat' split
  all_goals simp_all [vendorTargetKeys]

end InsClaims
